import Mathlib

/-!
Verification of the DDL planning core of `sql/create.go` (CREATE DATABASE /
CREATE TABLE / CREATE INDEX, foreign-key resolution, interleave linking).

The Go code is shallowly embedded: descriptors become Lean structures,
in-place mutation becomes explicit state passing, `error` returns become
`Except String`, and the external transactional store is an explicit list of
table descriptors threaded through the functions.  Helper routines that live
outside the excerpted file (`sqlbase` descriptor utilities, the descriptor
store) are modelled from the spec and marked as such in their doc comments.
-/

namespace CreateGo

/-! ## Descriptor data model (sqlbase protobufs, as read by create.go) -/

/-- Direction of an index column (`IndexDescriptor_Direction`). -/
inductive IndexDir where
  | ASC
  | DESC
deriving Repr, DecidableEq

/-- Kind of a column type (`ColumnType_Kind`); only the kinds exercised by the
claims are listed. -/
inductive ColumnKind where
  | INT
  | BOOL
  | FLOAT
  | STRING
  | BYTES
deriving Repr, DecidableEq

/-- `ColumnType` carries its `Kind` (the code compares `Type.Kind` for FK type
checks and whole `Type` values for interleave checks; with only `Kind`
modelled the two comparisons coincide). -/
structure ColumnType where
  kind : ColumnKind
deriving Repr, DecidableEq

/-- `ColumnDescriptor`. -/
structure ColumnDescriptor where
  id : Nat
  name : String
  type : ColumnType
  nullable : Bool
  defaultExpr : Option String
  hidden : Bool
deriving Repr, DecidableEq

/-- `ForeignKeyReference`: a directed edge naming a table and one of its
indexes; `name` is the constraint name (zero value `""` when absent). -/
structure ForeignKeyReference where
  table : Nat
  index : Nat
  name : String
deriving Repr, DecidableEq

/-- `InterleaveDescriptor_Ancestor`.  `sharedPrefixLen` is a Go `uint32`;
it is modelled as a `Nat` and every arithmetic step that Go performs on it
is taken modulo `2 ^ 32` where it appears. -/
structure InterleaveAncestor where
  tableID : Nat
  indexID : Nat
  sharedPrefixLen : Nat
deriving Repr, DecidableEq

/-- `IndexDescriptor`.  `interleaveAncestors` is the `Interleave.Ancestors`
list; `foreignKey` is the nilable `*ForeignKeyReference`. -/
structure IndexDescriptor where
  id : Nat
  name : String
  unique : Bool
  columnNames : List String
  columnIDs : List Nat
  columnDirections : List IndexDir
  storeColumnNames : List String
  foreignKey : Option ForeignKeyReference
  referencedBy : List ForeignKeyReference
  interleaveAncestors : List InterleaveAncestor
  interleavedBy : List ForeignKeyReference
deriving Repr, DecidableEq

/-- `TableDescriptor_State`. -/
inductive TableState where
  | ADD
  | PUBLIC
  | DROP
deriving Repr, DecidableEq

/-- `DescriptorMutation_Direction`. -/
inductive MutationDirection where
  | ADD
  | DROP
deriving Repr, DecidableEq

/-- `DescriptorMutation`; only the index payload is exercised by this file
(`GetIndex`), so the `oneof` descriptor is modelled as an index. -/
structure DescriptorMutation where
  index : IndexDescriptor
  direction : MutationDirection
  mutationID : Nat
deriving Repr, DecidableEq

/-- `TableDescriptor`.  `checks` models the table-level CHECK constraint list
that `MakeTableDesc` fills from `CheckConstraintTableDef`s (name, expression
source); expressions are kept as uninterpreted strings. -/
structure TableDescriptor where
  id : Nat
  name : String
  parentID : Nat
  columns : List ColumnDescriptor
  primaryIndex : IndexDescriptor
  indexes : List IndexDescriptor
  mutations : List DescriptorMutation
  nextMutationID : Nat
  state : TableState
  checks : List (String × String)
deriving Repr, DecidableEq

/-- All indexes of a table in Go traversal order: the primary index first,
then the secondary `Indexes`. -/
def allIndexes (t : TableDescriptor) : List IndexDescriptor :=
  t.primaryIndex :: t.indexes

/-! ## Modelled sqlbase / store helpers -/

/-- Modelled from the spec: `sqlbase.TableDescriptor.FindActiveColumnByName`
(not under `src/`) returns the first live column with the given name, or a
"column does not exist" error. -/
def findActiveColumnByName (t : TableDescriptor) (name : String) :
    Option ColumnDescriptor :=
  t.columns.find? (fun c => c.name == name)

/-- Modelled from the spec: `sqlbase.TableDescriptor.FindIndexByID` (not under
`src/`) returns the first index — the primary index included — carrying the
given ID, or an "index-id does not exist" error. -/
def findIndexByID (t : TableDescriptor) (id : Nat) : Option IndexDescriptor :=
  (allIndexes t).find? (fun i => i.id == id)

/-- Modelled from the spec: `sqlbase.TableDescriptor.FindColumnByID` (not
under `src/`). -/
def findColumnByID (t : TableDescriptor) (id : Nat) : Option ColumnDescriptor :=
  t.columns.find? (fun c => c.id == id)

/-- In-place mutation of the index `FindIndexByID` would return: rewrite the
first index (primary included) whose ID matches.  Mirrors how create.go
mutates through the returned `*IndexDescriptor`. -/
def updateIndexList (f : IndexDescriptor → IndexDescriptor) (id : Nat) :
    List IndexDescriptor → List IndexDescriptor
  | [] => []
  | i :: rest =>
      if i.id = id then f i :: rest else i :: updateIndexList f id rest

/-- In-place mutation of the index with the given ID in a table (primary
index first, matching `FindIndexByID` order). -/
def updateIndexByID (t : TableDescriptor) (id : Nat)
    (f : IndexDescriptor → IndexDescriptor) : TableDescriptor :=
  if t.primaryIndex.id = id then { t with primaryIndex := f t.primaryIndex }
  else { t with indexes := updateIndexList f id t.indexes }

/-- The external store, modelled from the spec (§6): tables addressed by
name for reads and by stable numeric ID for the pending FK back-reference
updates. -/
abbrev Env := List TableDescriptor

/-- Modelled from the spec: `planner.getTableDesc` — read a table descriptor
by name from the store; `none` when absent. -/
def envGetByName (env : Env) (name : String) : Option TableDescriptor :=
  env.find? (fun t => t.name == name)

/-- Modelled from the spec: read a table descriptor by ID from the store. -/
def envGetByID (env : Env) (id : Nat) : Option TableDescriptor :=
  env.find? (fun t => t.id == id)

/-- Modelled from the spec: write back the (first) table with the given ID. -/
def envSetByID (id : Nat) (t' : TableDescriptor) : Env → Env
  | [] => []
  | t :: ts => if t.id = id then t' :: ts else t :: envSetByID id t' ts

/-! ## CreateDatabase (create.go lines 41–65) -/

/-- The `planner.CreateDatabase` AST input: name, optional already-resolved
encoding string, and the session user. -/
structure CreateDatabaseInput where
  name : String
  encoding : Option String
  ifNotExists : Bool
deriving Repr, DecidableEq

/-- The plan node returned by `planner.CreateDatabase`: it only captures the
statement; descriptor creation is deferred to `Start`. -/
structure CreateDatabaseNode where
  stmt : CreateDatabaseInput
deriving Repr, DecidableEq

/-- Modelled from the spec: `security.RootUser`. -/
def rootUser : String := "root"

/-- Modelled from the spec: `errEmptyDatabaseName` (defined in errors.go,
not under `src/`). -/
def errEmptyDatabaseName : String := "empty database name"

/-- ASCII lowercasing of one character (all encodings compared here are
ASCII). -/
def asciiLower (c : Char) : Char :=
  if 'A' ≤ c ∧ c ≤ 'Z' then Char.ofNat (c.toNat + 32) else c

/-- `strings.EqualFold` restricted to the ASCII alphabets compared here. -/
def equalFold (a b : String) : Bool :=
  a.data.map asciiLower == b.data.map asciiLower

/-- The encoding test of `CreateDatabase`: only UTF8 (and the aliases
`UTF-8` and `UNICODE` for UTF8) are supported, case-insensitively. -/
def supportedEncoding (encodingStr : String) : Bool :=
  equalFold encodingStr "UTF8" ||
  equalFold encodingStr "UTF-8" ||
  equalFold encodingStr "UNICODE"

/-- `planner.CreateDatabase`: empty-name check, UTF-8 encoding check,
superuser check, in that order; on success the plan node is returned and
nothing else happens. -/
def createDatabase (n : CreateDatabaseInput) (user : String) :
    Except String CreateDatabaseNode := do
  if n.name = "" then
    throw errEmptyDatabaseName
  match n.encoding with
  | some encodingStr =>
      -- We only support UTF8 (and aliases for UTF8).
      if !supportedEncoding encodingStr then
        throw (encodingStr ++ " is not a supported encoding")
  | none => pure ()
  if user ≠ rootUser then
    throw ("only " ++ rootUser ++ " is allowed to create databases")
  return { stmt := n }

/-! ## CreateIndex Start (create.go lines 136–208) -/

/-- Status classification returned by `FindIndexByName`: the index is either
live in `Indexes` (`active`, i.e. PUBLIC) or pending inside `Mutations`
(`incomplete`). -/
inductive DescriptorStatus where
  | active
  | incomplete
deriving Repr, DecidableEq

/-- Modelled from the spec: `sqlbase.TableDescriptor.FindIndexByName` (not
under `src/`) — search the live secondary indexes, then the pending
mutations; on a hit in `Mutations` the returned ordinal indexes into that
list. -/
def findIndexByName (t : TableDescriptor) (name : String) :
    Option (DescriptorStatus × Nat) :=
  match (t.indexes.findIdx? (fun i => i.name == name)) with
  | some i => some (.active, i)
  | none =>
      match (t.mutations.findIdx? (fun m => m.index.name == name)) with
      | some i => some (.incomplete, i)
      | none => none

/-- One column requested by `CREATE INDEX` (`parser.IndexElem`). -/
structure IndexElem where
  column : String
  direction : IndexDir
deriving Repr, DecidableEq

/-- The `parser.CreateIndex` fields read by `Start`. -/
structure CreateIndexInput where
  name : String
  unique : Bool
  ifNotExists : Bool
  columns : List IndexElem
  storing : List String
deriving Repr, DecidableEq

/-- Modelled from the spec: `IndexDescriptor.FillColumns` (not under `src/`)
copies the requested columns/directions into the descriptor, rejecting an
empty column list. -/
def fillColumns (idx : IndexDescriptor) (cols : List IndexElem) :
    Except String IndexDescriptor :=
  if cols.isEmpty then
    throw "index must contain at least 1 column"
  else
    .ok { idx with
            columnNames := cols.map (·.column),
            columnDirections := cols.map (·.direction) }

/-- Modelled from the spec: `TableDescriptor.AddIndexMutation` (not under
`src/`) appends a pending mutation for the index in the given direction. -/
def addIndexMutation (t : TableDescriptor) (idx : IndexDescriptor)
    (dir : MutationDirection) : TableDescriptor :=
  { t with mutations := t.mutations ++ [{ index := idx, direction := dir, mutationID := 0 }] }

/-- Modelled from the spec: `TableDescriptor.FinalizeMutation` (not under
`src/`) stamps the queued mutations with the table's next mutation ID and
bumps the counter, returning the ID used. -/
def finalizeMutation (t : TableDescriptor) : TableDescriptor × Nat :=
  ({ t with
      mutations := t.mutations.map (fun m =>
        if m.mutationID = 0 then { m with mutationID := t.nextMutationID } else m),
      nextMutationID := t.nextMutationID + 1 },
   t.nextMutationID)

/-- Modelled from the spec: the duplicate-name rejection that
`AllocateIDs` performs on the descriptor (the code comments that a pending
ADD duplicate "will fail in AllocateIDs below"). -/
def allocateIDsCheck (t : TableDescriptor) : Except String TableDescriptor :=
  let names := (allIndexes t).map (·.name) ++ t.mutations.map (·.index.name)
  if names.Nodup then .ok t else throw ("duplicate index name: " ++ t.name)

/-- The tail of `createIndexNode.Start` past the name-collision checks:
fill the requested columns, append the ADD mutation, stamp the mutation ID
and run the duplicate validation of `AllocateIDs`. -/
def createIndexProceed (t : TableDescriptor) (n : CreateIndexInput) :
    Except String (TableDescriptor × Option Nat) :=
  let indexDesc : IndexDescriptor :=
    { id := 0, name := n.name, unique := n.unique,
      columnNames := [], columnIDs := [], columnDirections := [],
      storeColumnNames := n.storing, foreignKey := none, referencedBy := [],
      interleaveAncestors := [], interleavedBy := [] }
  match fillColumns indexDesc n.columns with
  | .error e => .error e
  | .ok indexDesc =>
      let t1 := addIndexMutation t indexDesc .ADD
      let (t2, mutationID) := finalizeMutation t1
      match allocateIDsCheck t2 with
      | .error e => .error e
      | .ok t3 => .ok (t3, some mutationID)

/-- `createIndexNode.Start`, up to and including appending the ADD mutation
and duplicate validation (the subsequent interleave handling, descriptor
write and event logging are external effects).  Returns the updated table
and the mutation ID appended, or `none` when the statement was a no-op. -/
def createIndexStart (t : TableDescriptor) (n : CreateIndexInput) :
    Except String (TableDescriptor × Option Nat) :=
  match findIndexByName t n.name with
  | some (status, i) =>
      match status, t.mutations[i]? with
      | .incomplete, some m =>
          match m.direction with
          | .DROP =>
              .error ("index \"" ++ n.name ++ "\" being dropped, try again later")
          | .ADD =>
              -- Noop, will fail in AllocateIDs below.
              if n.ifNotExists then .ok (t, none) else createIndexProceed t n
      | _, _ => if n.ifNotExists then .ok (t, none) else createIndexProceed t n
  | none => createIndexProceed t n

/-! ## addInterleave (create.go lines 502–554) -/

/-- `parser.InterleaveDef` drop behavior. -/
inductive DropBehavior where
  | dropDefault
  | dropRestrict
  | dropCascade
deriving Repr, DecidableEq

/-- The `parser.InterleaveDef` fields read by `addInterleave`. -/
structure InterleaveDef where
  parent : String
  fields : List String
  dropBehavior : DropBehavior
deriving Repr, DecidableEq

/-- Modelled from the spec: `sqlbase.NormalizeName` (not under `src/`) —
case-normalization of an identifier. -/
def normalizeName (s : String) : String := String.mk (s.data.map asciiLower)

/-- `uint32` subtraction on `Nat` values kept below `2 ^ 32`. -/
def u32sub (a b : Nat) : Nat :=
  (a + (2 ^ 32 - b % 2 ^ 32)) % 2 ^ 32

/-- The per-column prefix validation loop of `addInterleave`: for every
parent primary-key column, the declared field must name the child index
column at the same position, with equal types and directions. -/
def interleaveColsOK (parentTable desc : TableDescriptor)
    (parentIndex index : IndexDescriptor) (fields : List String) : Except String Unit := do
  for i in List.range parentIndex.columnIDs.length do
    match parentIndex.columnIDs.get? i with
    | none => pure ()
    | some targetColID =>
      match findColumnByID parentTable targetColID with
      | none => throw "column-id does not exist"
      | some targetCol =>
        match index.columnIDs.get? i with
        | none => throw "declared columns must match index being interleaved"
        | some colID =>
          match findColumnByID desc colID with
          | none => throw "column-id does not exist"
          | some col =>
            if normalizeName (fields.getD i "") ≠ normalizeName col.name then
              throw "declared columns must match index being interleaved"
            else if col.type ≠ targetCol.type ∨
                (index.columnDirections.get? i ≠ parentIndex.columnDirections.get? i) then
              throw "interleaved columns must match parent"
            else pure ()

/-- `planner.addInterleave`: validate the declared interleave against the
parent's primary index, then install the ancestor chain on the child index
(the parent's own chain plus one entry for the parent, whose shared prefix
length is the parent's primary-key column count less what the parent's
ancestors already consumed, in `uint32` arithmetic). -/
def addInterleave (env : Env) (desc : TableDescriptor)
    (index : IndexDescriptor) (interleave : InterleaveDef) :
    Except String IndexDescriptor := do
  if interleave.dropBehavior ≠ .dropDefault then
    throw "unsupported shorthand"
  let parentTable ← match envGetByName env interleave.parent with
    | some t => pure t
    | none => throw ("table \"" ++ interleave.parent ++ "\" does not exist")
  let parentIndex := parentTable.primaryIndex
  if interleave.fields.length ≠ parentIndex.columnIDs.length then
    throw "interleaved columns must match parent"
  if interleave.fields.length > index.columnIDs.length then
    throw "declared columns must match index being interleaved"
  interleaveColsOK parentTable desc parentIndex index interleave.fields
  let ancestorChain := parentIndex.interleaveAncestors
  let intl0 : InterleaveAncestor :=
    { tableID := parentTable.id, indexID := parentIndex.id,
      sharedPrefixLen := parentIndex.columnIDs.length % 2 ^ 32 }
  let intl := ancestorChain.foldl
    (fun a ancestor => { a with sharedPrefixLen := u32sub a.sharedPrefixLen ancestor.sharedPrefixLen })
    intl0
  return { index with interleaveAncestors := ancestorChain ++ [intl] }

/-! ## CreateTable AST, hoistConstraints (create.go lines 248–261) -/

/-- The fields of `parser.ColumnTableDef` read by this file: the inline CHECK
expression (with optional constraint name), the inline REFERENCES clause,
and the primary-key marker.  Expressions are uninterpreted strings. -/
structure ColumnTableDef where
  name : String
  typeKind : ColumnKind
  nullable : Bool
  primaryKey : Bool
  checkExpr : Option String
  checkConstraintName : String
  refTable : Option String
  refCol : String
  refConstraintName : String
deriving Repr, DecidableEq

/-- A `parser.TableDef`: either a column definition or a table-level CHECK
constraint (`CheckConstraintTableDef`, name plus expression). -/
inductive TableDef where
  | column (c : ColumnTableDef)
  | checkConstraint (name : String) (expr : String)
deriving Repr, DecidableEq

/-- One pass of the loop body of `hoistConstraints` over the snapshot of the
definition list: collect cleared defs and the table-level defs to append. -/
def hoistPass : List TableDef → List TableDef × List TableDef
  | [] => ([], [])
  | d :: rest =>
      let (cleared, appended) := hoistPass rest
      match d with
      | .column c =>
          match c.checkExpr with
          | some e =>
              (.column { c with checkExpr := none } :: cleared,
               .checkConstraint (if c.checkConstraintName ≠ "" then c.checkConstraintName else "") e
                 :: appended)
          | none => (d :: cleared, appended)
      | .checkConstraint _ _ => (d :: cleared, appended)

/-- `hoistConstraints`: every column-level CHECK becomes a table-level
`CheckConstraintTableDef` appended at the end of the definition list (in
column order), and the column-level expression is cleared.  Go's `range`
iterates the snapshot taken before the appends, so appended defs are not
revisited. -/
def hoistConstraints (defs : List TableDef) : List TableDef :=
  let (cleared, appended) := hoistPass defs
  cleared ++ appended

/-! ## MakeTableDesc / AllocateIDs (sqlbase, modelled) and the rowid branch
of createTableNode.Start (create.go lines 267–301) -/

/-- An empty index descriptor (protobuf zero value). -/
def emptyIndex : IndexDescriptor :=
  { id := 0, name := "", unique := false, columnNames := [], columnIDs := [],
    columnDirections := [], storeColumnNames := [], foreignKey := none,
    referencedBy := [], interleaveAncestors := [], interleavedBy := [] }

/-- Modelled from the spec: `sqlbase.MakeTableDesc` (not under `src/`) —
build the initial descriptor from the definition list: user columns in
declaration order (never hidden; the hidden `rowid` is synthesized only by
`Start`), a primary index over the columns marked PRIMARY KEY, and the
table-level CHECK constraints. -/
def makeTableDesc (name : String) (parentID : Nat) (defs : List TableDef) :
    TableDescriptor :=
  let cols := defs.filterMap (fun d =>
    match d with
    | .column c =>
        some { id := 0, name := c.name, type := { kind := c.typeKind },
               nullable := c.nullable && !c.primaryKey, defaultExpr := none,
               hidden := false : ColumnDescriptor }
    | _ => none)
  let pkCols := defs.filterMap (fun d =>
    match d with
    | .column c => if c.primaryKey then some c.name else none
    | _ => none)
  let checks := defs.filterMap (fun d =>
    match d with
    | .checkConstraint nm e => some (nm, e)
    | _ => none)
  { id := 0, name := name, parentID := parentID, columns := cols,
    primaryIndex :=
      { emptyIndex with
          name := "primary", unique := true, columnNames := pkCols,
          columnDirections := pkCols.map (fun _ => IndexDir.ASC) },
    indexes := [], mutations := [], nextMutationID := 1,
    state := .PUBLIC, checks := checks }

/-- `TableDescriptor.AddColumn` (sqlbase, modelled from the spec): append. -/
def addColumn (t : TableDescriptor) (c : ColumnDescriptor) : TableDescriptor :=
  { t with columns := t.columns ++ [c] }

/-- `TableDescriptor.AddIndex` with `primary = true` (sqlbase, modelled from
the spec): install as the primary index (the caller guarded that none was
declared). -/
def addPrimaryIndex (t : TableDescriptor) (idx : IndexDescriptor) : TableDescriptor :=
  { t with primaryIndex := idx }

/-- Consecutive ID assignment to columns starting at `n` (the column part of
`AllocateIDs`); everything but the ID is untouched. -/
def numberCols : Nat → List ColumnDescriptor → List ColumnDescriptor
  | _, [] => []
  | n, c :: rest => { c with id := n } :: numberCols (n + 1) rest

/-- Consecutive ID assignment to secondary indexes starting at `n`, also
filling each index's `columnIDs` from its `columnNames` through the given
name-to-ID map. -/
def numberIdxs (colID : String → Nat) : Nat → List IndexDescriptor → List IndexDescriptor
  | _, [] => []
  | n, i :: rest =>
      { i with id := n, columnIDs := i.columnNames.map colID } ::
        numberIdxs colID (n + 1) rest

/-- Modelled from the spec: `TableDescriptor.AllocateIDs` (not under `src/`)
assigns stable numeric identities: column IDs in declaration order, index
IDs (primary first), and fills each index's `columnIDs` from its
`columnNames`.  Names, flags and defaults are untouched. -/
def allocateIDs (t : TableDescriptor) : TableDescriptor :=
  let cols := numberCols 1 t.columns
  let colID := fun (nm : String) =>
    ((cols.find? (fun c => c.name == nm)).map (·.id)).getD 0
  { t with
      columns := cols,
      primaryIndex :=
        { t.primaryIndex with
            id := 1, columnIDs := t.primaryIndex.columnNames.map colID },
      indexes := numberIdxs colID 2 t.indexes }

/-- The primary-key synthesis branch of `createTableNode.Start` (lines
276–297): when no explicit primary key was declared, add the hidden
non-nullable `rowid` INT column defaulting to `unique_rowid()` and a unique
ascending primary index over it. -/
def ensurePrimaryKey (desc : TableDescriptor) : TableDescriptor :=
  if desc.primaryIndex.columnNames.length = 0 then
    -- Ensure a Primary Key exists.
    let col : ColumnDescriptor :=
      { id := 0, name := "rowid", type := { kind := .INT },
        defaultExpr := some "unique_rowid()", hidden := true, nullable := false }
    let desc := addColumn desc col
    let idx : IndexDescriptor :=
      { emptyIndex with
          unique := true, columnNames := [col.name],
          columnDirections := [IndexDir.ASC] }
    addPrimaryIndex desc idx
  else desc

/-- `createTableNode.Start` through descriptor construction: hoist inline
CHECK constraints, build the descriptor, synthesize the primary key when
absent, and allocate IDs (FK resolution and persistence follow separately). -/
def createTableDesc (name : String) (parentID : Nat) (defs : List TableDef) :
    TableDescriptor :=
  allocateIDs (ensurePrimaryKey (makeTableDesc name parentID (hoistConstraints defs)))

/-! ## Foreign-key resolution (create.go lines 386–498 and 556–588) -/

/-- The inline REFERENCES clause of one column, as consumed by the FK loop of
`createTableNode.Start` (lines 312–322): source column name, target table
name, optional target column name and optional constraint name (`""` when
absent, matching the parser's zero values). -/
structure FKDecl where
  fromCol : String
  targetTable : String
  targetCol : String
  constraintName : String
deriving Repr, DecidableEq

/-- `fkTargetUpdate`: the information accumulated by `resolveColFK` so that
the referenced table can be edited after the referencing table has an ID.
Go stores a live `*TableDescriptor`; following the spec's store model the
target is recorded by numeric ID, with `targetSelf` standing for the pointer
equality `t.target == desc` of a self-reference. -/
structure FKTargetUpdate where
  srcIdx : Nat
  targetSelf : Bool
  targetID : Nat
  targetIdx : Nat
deriving Repr, DecidableEq

/-- The target-index search of `resolveColFK` (lines 439–452) over the
secondary indexes: the first unique index whose leading key column is the
target column.  (Go reads `ColumnIDs[0]` and would panic on an index with no
key columns; such an index is treated as a non-match here, and every theorem
below keeps descriptors with non-empty key columns.) -/
def findUniqueIndexOnCol : List IndexDescriptor → Nat → Option Nat
  | [], _ => none
  | idx :: rest, cid =>
      if idx.unique && idx.columnIDs.head? == some cid then some idx.id
      else findUniqueIndexOnCol rest cid

/-- The full target-index search: the primary index when its leading column
is the target column, else the first eligible unique secondary index. -/
def findTargetIdx (target : TableDescriptor) (cid : Nat) : Option Nat :=
  if target.primaryIndex.columnIDs.head? = some cid then some target.primaryIndex.id
  else findUniqueIndexOnCol target.indexes cid

/-- The source-index attachment of `resolveColFK` (lines 463–477) over the
secondary indexes: set the forward reference on the first index whose
leading key column is the source column, returning the rewritten list and
that index's ID. -/
def attachToFirst (ref : ForeignKeyReference) (cid : Nat) :
    List IndexDescriptor → Option (List IndexDescriptor × Nat)
  | [] => none
  | i :: rest =>
      if i.columnIDs.head? = some cid then
        some ({ i with foreignKey := some ref } :: rest, i.id)
      else (attachToFirst ref cid rest).map (fun p => (i :: p.1, p.2))

/-- The full source-index attachment: the primary index counts first. -/
def attachFKToSource (tbl : TableDescriptor) (cid : Nat)
    (ref : ForeignKeyReference) : Option (TableDescriptor × Nat) :=
  if tbl.primaryIndex.columnIDs.head? = some cid then
    some ({ tbl with primaryIndex := { tbl.primaryIndex with foreignKey := some ref } },
          tbl.primaryIndex.id)
  else
    (attachToFirst ref cid tbl.indexes).map (fun p => ({ tbl with indexes := p.1 }, p.2))

/-- The target-table lookup of `resolveColFK` (lines 409–419): read the
store by name; on a miss, a name equal to the in-progress table resolves to
that table itself (the self-reference case), anything else is an error. -/
def resolveTargetTable (env : Env) (tbl : TableDescriptor) (name : String) :
    Except String (TableDescriptor × Bool) :=
  match envGetByName env name with
  | some t => .ok (t, false)
  | none =>
      if name = tbl.name then .ok (tbl, true)
      else .error ("referenced table \"" ++ name ++ "\" not found")

/-- The target-column defaulting of `resolveColFK` (lines 421–427): an
unnamed target column defaults to the target's primary key only when that
key has exactly one column. -/
def resolveTargetColName (target : TableDescriptor) (targetTableName targetCol : String) :
    Except String String :=
  if targetCol = "" then
    if target.primaryIndex.columnNames.length ≠ 1 then
      .error ("must specify a single unique column to reference \"" ++ targetTableName ++ "\"")
    else .ok (target.primaryIndex.columnNames.getD 0 "")
  else .ok targetCol

/-- `createTableNode.resolveColFK`: resolve one column-level REFERENCES
declaration against the store (`env`) and the in-progress table `tbl`,
attaching the forward reference and returning the pending target update. -/
def resolveColFK (env : Env) (tbl : TableDescriptor) (d : FKDecl) :
    Except String (TableDescriptor × FKTargetUpdate) :=
  match findActiveColumnByName tbl d.fromCol with
  | none => .error ("column \"" ++ d.fromCol ++ "\" does not exist")
  | some src =>
    match resolveTargetTable env tbl d.targetTable with
    | .error e => .error e
    | .ok (target, targetSelf) =>
      -- If a column isn't specified, attempt to default to PK.
      match resolveTargetColName target d.targetTable d.targetCol with
      | .error e => .error e
      | .ok targetColName =>
        match findActiveColumnByName target targetColName with
        | none => .error ("column \"" ++ targetColName ++ "\" does not exist")
        | some targetCol =>
          if src.type.kind ≠ targetCol.type.kind then
            .error ("type of \"" ++ d.fromCol ++ "\" does not match foreign key \"" ++
                    target.name ++ "\".\"" ++ targetCol.name ++ "\"")
          else
            match findTargetIdx target targetCol.id with
            | none =>
                .error ("foreign key requires a unique index on " ++
                        d.targetTable ++ "." ++ targetCol.name)
            | some targetIdx =>
              -- the constraint name defaults to fk_<col>_ref_<table>_<targetcol>
              match attachFKToSource tbl src.id
                  { table := target.id, index := targetIdx,
                    name := if d.constraintName = "" then
                        "fk_" ++ d.fromCol ++ "_ref_" ++ target.name ++ "_" ++ targetColName
                      else d.constraintName } with
              | none =>
                  .error ("foreign key column \"" ++ src.name ++
                          "\" must be the prefix of an index")
              | some (tbl1, srcIdx) =>
                  .ok ({ tbl1 with state := .ADD },
                       { srcIdx := srcIdx, targetSelf := targetSelf,
                         targetID := target.id, targetIdx := targetIdx })

/-- The FK loop of `createTableNode.Start` (lines 311–322): resolve each
declaration in order, threading the in-progress descriptor and accumulating
the pending target updates. -/
def resolveFKs (env : Env) :
    TableDescriptor → List FKDecl → Except String (TableDescriptor × List FKTargetUpdate)
  | tbl, [] => .ok (tbl, [])
  | tbl, d :: ds => do
      let (tbl1, u) ← resolveColFK env tbl d
      let (tbl2, us) ← resolveFKs env tbl1 ds
      return (tbl2, u :: us)

/-- `createTableNode.finalizeFKs`: append the back-reference on each pending
target (for a self-reference, on the descriptor itself, also repairing the
forward reference's table ID), persisting and notifying per processed
target; finally flip the descriptor from ADD to PUBLIC and persist it.  The
returned list is the sequence of table IDs passed to
`saveNonmutationAndNotify`, in call order. -/
def finalizeFKs (env : Env) (desc : TableDescriptor) :
    List FKTargetUpdate → Except String (Env × TableDescriptor × List Nat)
  | [] =>
      if desc.state = .ADD then
        .ok (env, { desc with state := .PUBLIC }, [desc.id])
      else .ok (env, desc, [])
  | u :: rest =>
      if u.targetSelf then
        match findIndexByID desc u.targetIdx with
        | none => throw "index-id does not exist"
        | some _ =>
            let desc1 := updateIndexByID desc u.targetIdx (fun i =>
              { i with referencedBy := i.referencedBy ++
                  [{ table := desc.id, index := u.srcIdx, name := "" }] })
            -- srcIdx.ForeignKey.Table = desc.ID (Go dereferences the set pointer)
            let desc2 := updateIndexByID desc1 u.srcIdx (fun i =>
              { i with foreignKey := i.foreignKey.map (fun fk => { fk with table := desc.id }) })
            finalizeFKs env desc2 rest
      else
        match envGetByID env u.targetID with
        | none => throw "referenced table not found"
        | some tgt =>
            match findIndexByID tgt u.targetIdx with
            | none => throw "index-id does not exist"
            | some _ =>
                let tgt1 := updateIndexByID tgt u.targetIdx (fun i =>
                  { i with referencedBy := i.referencedBy ++
                      [{ table := desc.id, index := u.srcIdx, name := "" }] })
                let env1 := envSetByID u.targetID tgt1 env
                do
                  let (env', desc', saved) ← finalizeFKs env1 desc rest
                  return (env', desc', u.targetID :: saved)

/-- The FK portion of `createTableNode.Start` end to end: resolve the
declarations on the freshly built descriptor, let the store's
`createDescriptor` assign the real table ID (modelled from the spec), then
finalize the two-sided links. -/
def runCreateTableFKs (env : Env) (desc0 : TableDescriptor)
    (decls : List FKDecl) (newID : Nat) :
    Except String (Env × TableDescriptor × List Nat) := do
  let (desc1, updates) ← resolveFKs env desc0 decls
  let desc2 := { desc1 with id := newID }
  finalizeFKs env desc2 updates

/-! ## Views and derived notions used by the statements -/

/-- An index with its forward foreign-key reference erased: the part of an
index descriptor that FK resolution never modifies. -/
def stripFK (i : IndexDescriptor) : IndexDescriptor :=
  { i with foreignKey := none }

/-- The IDs of all indexes of a table, primary first. -/
def idsOf (t : TableDescriptor) : List Nat :=
  (allIndexes t).map (·.id)

/-- The forward foreign-key reference carried by the index with the given
ID, if any. -/
def fkView (t : TableDescriptor) (j : Nat) : Option ForeignKeyReference :=
  (findIndexByID t j).bind (·.foreignKey)

/-- The back-reference list carried by the index with the given ID (empty
when the ID is absent). -/
def rbView (t : TableDescriptor) (j : Nat) : List ForeignKeyReference :=
  ((findIndexByID t j).map (·.referencedBy)).getD []

/-- The smallest-ordinal index of a table whose leading key column is the
given column, the primary index counting as ordinal zero — the index
`resolveColFK` attaches the forward reference to. -/
def firstIndexOnCol (t : TableDescriptor) (cid : Nat) : Option Nat :=
  ((allIndexes t).find? (fun i => i.columnIDs.head? == some cid)).map (·.id)

/-- The IDs of every eligible target index for a foreign key into the given
column: the unique indexes (primary first) whose leading key column is that
column. -/
def eligibleUniqueIndexes (t : TableDescriptor) (cid : Nat) : List Nat :=
  ((allIndexes t).filter (fun i => i.unique && i.columnIDs.head? == some cid)).map (·.id)

/-- Erase the inline CHECK of a column definition (what hoisting leaves
behind at the column). -/
def clearColumnCheck : TableDef → TableDef
  | .column c => .column { c with checkExpr := none }
  | d => d

/-- The table-level CHECK constraint a column's inline CHECK stands for,
carrying the same expression and (when given) the same constraint name. -/
def extractColumnCheck : TableDef → Option TableDef
  | .column c => c.checkExpr.map (fun e => .checkConstraint c.checkConstraintName e)
  | _ => none

/-- Following the spec's words for the refinement claim: the definition list
of "an equivalent CREATE TABLE that declared the same CHECKs at table level
from the start" — each column keeps everything but its inline CHECK, and
one table-level CHECK with the same name and expression is declared per
inline CHECK. -/
def declaredAtTableLevel (defs : List TableDef) : List TableDef :=
  defs.map clearColumnCheck ++ defs.filterMap extractColumnCheck

/-- The saved-tables component of a finished FK run (the IDs handed to
`saveNonmutationAndNotify`, in order). -/
def savedOf (r : Except String (Env × TableDescriptor × List Nat)) : Option (List Nat) :=
  (r.toOption).map (·.2.2)

/-- Bidirectional foreign-key consistency of a freshly created table against
a collection of tables: an index `i` of the new table points at index `J` of
table `T` if and only if `J` carries exactly one back-reference naming the
new table and `i`. -/
def fkConsistent (desc : TableDescriptor) (tables : List TableDescriptor) : Prop :=
  ∀ i ∈ allIndexes desc, ∀ T ∈ tables, ∀ J ∈ allIndexes T,
    ((∃ fk, i.foreignKey = some fk ∧ fk.table = T.id ∧ fk.index = J.id) ↔
      J.referencedBy.countP (fun e => e.table == desc.id && e.index == i.id) = 1)

/-! ## Concrete fixtures for witnesses and counterexamples -/

/-- A single-kind index fixture: ascending columns, no references. -/
def wIdx (id : Nat) (nm : String) (u : Bool) (cols : List (String × Nat)) :
    IndexDescriptor :=
  { id := id, name := nm, unique := u, columnNames := cols.map (·.1),
    columnIDs := cols.map (·.2), columnDirections := cols.map (fun _ => .ASC),
    storeColumnNames := [], foreignKey := none, referencedBy := [],
    interleaveAncestors := [], interleavedBy := [] }

/-- An INT column fixture. -/
def wCol (id : Nat) (nm : String) : ColumnDescriptor :=
  { id := id, name := nm, type := { kind := .INT }, nullable := true,
    defaultExpr := none, hidden := false }

/-- Fixture: an existing table `abc(a PRIMARY KEY, b, c)` with a unique
index on `b`. -/
def wAbc : TableDescriptor :=
  { id := 2, name := "abc", parentID := 1,
    columns := [wCol 1 "a", wCol 2 "b", wCol 3 "c"],
    primaryIndex := wIdx 1 "primary" true [("a", 1)],
    indexes := [wIdx 2 "abc_b" true [("b", 2)]],
    mutations := [], nextMutationID := 1, state := .PUBLIC, checks := [] }

/-- Fixture: the freshly built table `xyz(x PRIMARY KEY, y, z)` with a
non-unique index on `y`, before ID allocation by the store. -/
def wXyz : TableDescriptor :=
  { id := 0, name := "xyz", parentID := 1,
    columns := [wCol 1 "x", wCol 2 "y", wCol 3 "z"],
    primaryIndex := wIdx 1 "primary" true [("x", 1)],
    indexes := [wIdx 2 "xyz_y" false [("y", 2)]],
    mutations := [], nextMutationID := 1, state := .PUBLIC, checks := [] }

/-- Fixture: FK declarations of `wXyz` — `x REFERENCES abc(a)` and
`y REFERENCES abc(b)`, two foreign keys into the same target table. -/
def wDecls : List FKDecl :=
  [{ fromCol := "x", targetTable := "abc", targetCol := "a", constraintName := "" },
   { fromCol := "y", targetTable := "abc", targetCol := "b", constraintName := "" }]

/-- Fixture: a self-referencing declaration list for `wXyz` —
`y REFERENCES xyz(x)` next to `x REFERENCES abc(a)`. -/
def wSelfDecls : List FKDecl :=
  [{ fromCol := "x", targetTable := "abc", targetCol := "a", constraintName := "" },
   { fromCol := "y", targetTable := "xyz", targetCol := "x", constraintName := "" }]

/-- Fixture: a target table with two eligible unique indexes on column `b`
(ambiguous under the claim's reading). -/
def wAmb : TableDescriptor :=
  { id := 2, name := "amb", parentID := 1,
    columns := [wCol 1 "a", wCol 2 "b"],
    primaryIndex := wIdx 1 "primary" true [("a", 1)],
    indexes := [wIdx 2 "u1" true [("b", 2)], wIdx 3 "u2" true [("b", 2)]],
    mutations := [], nextMutationID := 1, state := .PUBLIC, checks := [] }

/-- Fixture: a one-column source table `s(p PRIMARY KEY)`. -/
def wSrc : TableDescriptor :=
  { id := 0, name := "s", parentID := 1, columns := [wCol 1 "p"],
    primaryIndex := wIdx 1 "primary" true [("p", 1)],
    indexes := [], mutations := [], nextMutationID := 1, state := .PUBLIC,
    checks := [] }

/-- Fixture: a grandparent table `g(k PRIMARY KEY)`. -/
def wGrand : TableDescriptor :=
  { id := 3, name := "g", parentID := 1, columns := [wCol 1 "k"],
    primaryIndex := wIdx 1 "primary" true [("k", 1)],
    indexes := [], mutations := [], nextMutationID := 1, state := .PUBLIC,
    checks := [] }

/-- Fixture: a parent table `p(k, l)` whose primary index is itself
interleaved in `g` (one ancestor consuming one column). -/
def wParent : TableDescriptor :=
  { id := 4, name := "p", parentID := 1,
    columns := [wCol 1 "k", wCol 2 "l"],
    primaryIndex :=
      { wIdx 1 "primary" true [("k", 1), ("l", 2)] with
          interleaveAncestors := [{ tableID := 3, indexID := 1, sharedPrefixLen := 1 }] },
    indexes := [], mutations := [], nextMutationID := 1, state := .PUBLIC,
    checks := [] }

/-- Fixture: the child table `c(k, l, m)` being interleaved in `p`. -/
def wChild : TableDescriptor :=
  { id := 0, name := "c", parentID := 1,
    columns := [wCol 1 "k", wCol 2 "l", wCol 3 "m"],
    primaryIndex := wIdx 1 "primary" true [("k", 1), ("l", 2), ("m", 3)],
    indexes := [], mutations := [], nextMutationID := 1, state := .PUBLIC,
    checks := [] }

/-- Fixture: a table carrying a pending DROP mutation for index `idx`. -/
def wDropTbl : TableDescriptor :=
  { wAbc with mutations :=
      [{ index := wIdx 5 "idx" false [("c", 3)], direction := .DROP, mutationID := 1 }] }

/-- Fixture: a table carrying a pending ADD mutation for index `idx`. -/
def wAddTbl : TableDescriptor :=
  { wAbc with mutations :=
      [{ index := wIdx 5 "idx" false [("c", 3)], direction := .ADD, mutationID := 1 }] }

/-- Fixture: a plain column definition with an inline CHECK, used by the
CREATE TABLE witnesses. -/
def wColDef : ColumnTableDef :=
  { name := "a", typeKind := .INT, nullable := true, primaryKey := false,
    checkExpr := some "a > 1", checkConstraintName := "ck",
    refTable := none, refCol := "", refConstraintName := "" }

/-- The back-reference entry `finalizeFKs` appends: only the new table's ID
and the source index's ID, with an empty name. -/
def backRef (descId srcIdx : Nat) : ForeignKeyReference :=
  { table := descId, index := srcIdx, name := "" }

/-- The back-reference entries a finalization run appends to index `j` of
the new table itself: one per self-referencing update targeting `j`. -/
def selfRB (us : List FKTargetUpdate) (descId j : Nat) : List ForeignKeyReference :=
  (us.filter (fun u => u.targetSelf && u.targetIdx == j)).map (fun u => backRef descId u.srcIdx)

/-- The back-reference entries a finalization run appends to index `j` of
the stored table with ID `tid`: one per non-self update into that index. -/
def envRB (us : List FKTargetUpdate) (descId tid j : Nat) : List ForeignKeyReference :=
  (us.filter (fun u => !u.targetSelf && u.targetID == tid && u.targetIdx == j)).map
    (fun u => backRef descId u.srcIdx)

/-- The IDs of the referenced tables persisted by the per-update loop of
`finalizeFKs`, in call order: one per non-self update. -/
def savedList (us : List FKTargetUpdate) : List Nat :=
  (us.filter (fun u => !u.targetSelf)).map (·.targetID)

/-- The concrete outcome of the witness run: `xyz(x PRIMARY KEY, y, z)` with
`x REFERENCES abc(a)` and the self-reference `y REFERENCES xyz(x)`, created
with table ID 9 against a store holding `abc`. -/
def wOut : Env × TableDescriptor × List Nat :=
  (runCreateTableFKs [wAbc] wXyz wSelfDecls 9).toOption.getD ([], wXyz, [])

/-- The concrete outcome of the double-foreign-key witness run: `xyz` with
`x REFERENCES abc(a)` and `y REFERENCES abc(b)` — two foreign keys into the
same stored table. -/
def wOut2 : Env × TableDescriptor × List Nat :=
  (runCreateTableFKs [wAbc] wXyz wDecls 9).toOption.getD ([], wXyz, [])

/-! # Theorems -/

/-- C9: `CreateDatabase` planning fails on an empty name; with a non-empty
name and an encoding that is not a supported spelling of UTF-8 it fails with
an unsupported-encoding error naming the encoding; with name and encoding
past, a non-root session user gets the permission error; the checks apply in
exactly that order, and when all pass a plan node is returned with no side
effects (planning is a pure function of the statement). -/
theorem createDatabase_check_order
    (i1 : CreateDatabaseInput) (u1 : String)
    (i2 : CreateDatabaseInput) (e2 : String) (u2 : String)
    (i3 : CreateDatabaseInput) (u3 : String)
    (i4 : CreateDatabaseInput) :
    (i1.name = "" → createDatabase i1 u1 = .error errEmptyDatabaseName)
    ∧ (i2.name ≠ "" → i2.encoding = some e2 → supportedEncoding e2 = false →
        createDatabase i2 u2 = .error (e2 ++ " is not a supported encoding"))
    ∧ (i3.name ≠ "" → (i3.encoding.map supportedEncoding).getD true = true →
        u3 ≠ rootUser →
        createDatabase i3 u3 =
          .error ("only " ++ rootUser ++ " is allowed to create databases"))
    ∧ (i4.name ≠ "" → (i4.encoding.map supportedEncoding).getD true = true →
        createDatabase i4 rootUser = .ok { stmt := i4 }) := by
  refine ⟨?_, ?_, ?_, ?_⟩
  · intro h
    simp [createDatabase, h, throw, throwThe, MonadExceptOf.throw, Bind.bind, Except.bind]
  · intro h1 h2 h3
    simp [createDatabase, h1, h2, h3, throw, throwThe, MonadExceptOf.throw, Bind.bind,
          Except.bind, Functor.map, Except.map, pure, Except.pure]
  · intro h1 h2 h3
    cases henc : i3.encoding with
    | none =>
        simp [createDatabase, h1, henc, h3, throw, throwThe, MonadExceptOf.throw, Bind.bind,
              Except.bind, Functor.map, Except.map, pure, Except.pure]
    | some e =>
        rw [henc] at h2
        have h2' : supportedEncoding e = true := by simpa using h2
        simp [createDatabase, h1, henc, h2', h3, throw, throwThe, MonadExceptOf.throw, Bind.bind,
              Except.bind, Functor.map, Except.map, pure, Except.pure]
  · intro h1 h2
    cases henc : i4.encoding with
    | none =>
        simp [createDatabase, h1, henc, pure, Except.pure, Bind.bind, Except.bind]
    | some e =>
        rw [henc] at h2
        have h2' : supportedEncoding e = true := by simpa using h2
        simp [createDatabase, h1, henc, h2', pure, Except.pure, Bind.bind, Except.bind]

/-- C9 witness: each branch of the check-order theorem exercised at concrete
inputs ("" name; `LATIN1` encoding; non-root user `alice`; full success). -/
theorem createDatabase_check_order_witness :
    createDatabase { name := "", encoding := none, ifNotExists := false } "root"
        = .error errEmptyDatabaseName
    ∧ createDatabase { name := "db", encoding := some "LATIN1", ifNotExists := false } "root"
        = .error ("LATIN1" ++ " is not a supported encoding")
    ∧ createDatabase { name := "db", encoding := some "utf-8", ifNotExists := false } "alice"
        = .error ("only " ++ rootUser ++ " is allowed to create databases")
    ∧ createDatabase { name := "db", encoding := some "UNICODE", ifNotExists := false } "root"
        = .ok { stmt := { name := "db", encoding := some "UNICODE", ifNotExists := false } } := by
  obtain ⟨h1, h2, h3, h4⟩ := createDatabase_check_order
    { name := "", encoding := none, ifNotExists := false } "root"
    { name := "db", encoding := some "LATIN1", ifNotExists := false } "LATIN1" "root"
    { name := "db", encoding := some "utf-8", ifNotExists := false } "alice"
    { name := "db", encoding := some "UNICODE", ifNotExists := false }
  exact ⟨h1 (by decide), h2 (by decide) (by decide) (by decide),
         h3 (by decide) (by decide) (by decide), h4 (by decide) (by decide)⟩

/-- C3: against a table whose requested index name already exists — PUBLIC
with IF NOT EXISTS gives a no-op (`.ok` with no mutation appended and the
table unchanged); a pending ADD mutation with IF NOT EXISTS likewise; a
pending DROP mutation fails with the "being dropped, try again later"
conflict regardless of IF NOT EXISTS, appending nothing. -/
theorem createIndexStart_existing_name
    (tA : TableDescriptor) (nA : CreateIndexInput) (iA : Nat)
    (tB : TableDescriptor) (nB : CreateIndexInput) (iB : Nat) (mB : DescriptorMutation)
    (tC : TableDescriptor) (nC : CreateIndexInput) (iC : Nat) (mC : DescriptorMutation) :
    (findIndexByName tA nA.name = some (.active, iA) → nA.ifNotExists = true →
        createIndexStart tA nA = .ok (tA, none))
    ∧ (findIndexByName tB nB.name = some (.incomplete, iB) →
        tB.mutations[iB]? = some mB → mB.direction = .ADD → nB.ifNotExists = true →
        createIndexStart tB nB = .ok (tB, none))
    ∧ (findIndexByName tC nC.name = some (.incomplete, iC) →
        tC.mutations[iC]? = some mC → mC.direction = .DROP →
        createIndexStart tC nC =
          .error ("index \"" ++ nC.name ++ "\" being dropped, try again later")) := by
  refine ⟨?_, ?_, ?_⟩
  · intro hf hi
    simp [createIndexStart, hf, hi]
  · intro hf hg hd hi
    simp [createIndexStart, hf, hg, hd, hi]
  · intro hf hg hd
    simp [createIndexStart, hf, hg, hd]

/-- C3 witness: the three branches at concrete tables — `abc_b` already
PUBLIC on `wAbc`; `idx` pending as an ADD mutation on `wAddTbl`; `idx`
pending as a DROP mutation on `wDropTbl` (here with IF NOT EXISTS set, which
must not rescue it). -/
theorem createIndexStart_existing_name_witness :
    createIndexStart wAbc
        { name := "abc_b", unique := false, ifNotExists := true,
          columns := [{ column := "c", direction := .ASC }], storing := [] }
      = .ok (wAbc, none)
    ∧ createIndexStart wAddTbl
        { name := "idx", unique := false, ifNotExists := true,
          columns := [{ column := "c", direction := .ASC }], storing := [] }
      = .ok (wAddTbl, none)
    ∧ createIndexStart wDropTbl
        { name := "idx", unique := false, ifNotExists := true,
          columns := [{ column := "c", direction := .ASC }], storing := [] }
      = .error ("index \"" ++ "idx" ++ "\" being dropped, try again later") := by
  obtain ⟨h1, h2, h3⟩ := createIndexStart_existing_name
    wAbc { name := "abc_b", unique := false, ifNotExists := true,
           columns := [{ column := "c", direction := .ASC }], storing := [] } 0
    wAddTbl { name := "idx", unique := false, ifNotExists := true,
              columns := [{ column := "c", direction := .ASC }], storing := [] } 0
      { index := wIdx 5 "idx" false [("c", 3)], direction := .ADD, mutationID := 1 }
    wDropTbl { name := "idx", unique := false, ifNotExists := true,
               columns := [{ column := "c", direction := .ASC }], storing := [] } 0
      { index := wIdx 5 "idx" false [("c", 3)], direction := .DROP, mutationID := 1 }
  exact ⟨h1 (by decide) (by decide),
         h2 (by decide) (by decide) (by decide) (by decide),
         h3 (by decide) (by decide) (by decide)⟩

/-- `uint32` subtraction agrees with truncated `Nat` subtraction below the
wrap-around. -/
theorem u32sub_of_le (a x : Nat) (hx : x ≤ a) (ha : a < 2 ^ 32) :
    u32sub a x = a - x := by
  unfold u32sub
  have hxl : x % 2 ^ 32 = x := Nat.mod_eq_of_lt (lt_of_le_of_lt hx ha)
  rw [hxl]
  have h1 : a + (2 ^ 32 - x) = (a - x) + 2 ^ 32 := by omega
  rw [h1, Nat.add_mod_right]
  exact Nat.mod_eq_of_lt (by omega)

/-- Folding `uint32` subtraction over a list whose sum stays below the start
value computes plain subtraction of the sum. -/
theorem u32sub_foldl (xs : List Nat) :
    ∀ a, xs.sum ≤ a → a < 2 ^ 32 → xs.foldl u32sub a = a - xs.sum := by
  induction xs with
  | nil => intro a _ _; simp
  | cons x rest ih =>
      intro a hs ha
      have hx : x ≤ a := by simp [List.sum_cons] at hs; omega
      have hsum : rest.sum ≤ a - x := by
        simp [List.sum_cons] at hs; omega
      simp only [List.foldl_cons]
      rw [u32sub_of_le a x hx ha, ih (a - x) hsum (by omega)]
      simp [List.sum_cons]; omega

/-- The ancestor fold of `addInterleave` only rewrites the shared prefix
length, by the scalar fold. -/
theorem interleave_foldl_spl (l : List InterleaveAncestor) :
    ∀ a0 : InterleaveAncestor,
      l.foldl (fun a ancestor =>
        { a with sharedPrefixLen := u32sub a.sharedPrefixLen ancestor.sharedPrefixLen }) a0 =
      { a0 with sharedPrefixLen :=
          (l.map (·.sharedPrefixLen)).foldl u32sub a0.sharedPrefixLen } := by
  induction l with
  | nil => intro a0; simp
  | cons x rest ih =>
      intro a0
      simp only [List.foldl_cons, List.map_cons]
      rw [ih]

/-- C2: a successfully installed interleave gives the child index the
parent primary index's ancestor chain plus exactly one entry for the parent
— so the chain grows by one — whose shared prefix length is the parent's
primary-key column count minus what the parent's own ancestors consumed;
hence the shared prefix lengths over the whole child chain sum to the
parent's primary-key column count.  (The bounds keep the `uint32` arithmetic
of the Go code away from wrap-around; they restate the spec's invariant that
a chain never over-consumes the key columns.) -/
theorem addInterleave_ancestor_chain (env : Env) (desc : TableDescriptor)
    (index index' : IndexDescriptor) (intl : InterleaveDef)
    (parent : TableDescriptor)
    (hp : envGetByName env intl.parent = some parent)
    (hsum : (parent.primaryIndex.interleaveAncestors.map (·.sharedPrefixLen)).sum
        ≤ parent.primaryIndex.columnIDs.length)
    (hlen : parent.primaryIndex.columnIDs.length < 2 ^ 32)
    (hrun : addInterleave env desc index intl = .ok index') :
    index'.interleaveAncestors =
      parent.primaryIndex.interleaveAncestors ++
        [{ tableID := parent.id, indexID := parent.primaryIndex.id,
           sharedPrefixLen := parent.primaryIndex.columnIDs.length -
             (parent.primaryIndex.interleaveAncestors.map (·.sharedPrefixLen)).sum }]
    ∧ index'.interleaveAncestors.length =
        parent.primaryIndex.interleaveAncestors.length + 1
    ∧ (index'.interleaveAncestors.map (·.sharedPrefixLen)).sum =
        parent.primaryIndex.columnIDs.length := by
  unfold addInterleave at hrun
  rw [hp] at hrun
  simp only [bind, Except.bind, pure, Except.pure] at hrun
  split at hrun
  · exact absurd hrun (by simp [throw, throwThe, MonadExceptOf.throw])
  · split at hrun
    · exact absurd hrun (by simp [throw, throwThe, MonadExceptOf.throw])
    · split at hrun
      · exact absurd hrun (by simp [throw, throwThe, MonadExceptOf.throw])
      · cases hcols : interleaveColsOK parent desc parent.primaryIndex index intl.fields with
        | error e => rw [hcols] at hrun; exact absurd hrun (by simp)
        | ok u =>
            rw [hcols] at hrun
            simp only [Except.ok.injEq] at hrun
            subst hrun
            rw [interleave_foldl_spl]
            have hmod : parent.primaryIndex.columnIDs.length % 2 ^ 32 =
                parent.primaryIndex.columnIDs.length := Nat.mod_eq_of_lt hlen
            constructor
            · simp only [hmod]
              rw [u32sub_foldl _ _ hsum hlen]
            · constructor
              · simp
              · simp only [hmod, List.map_append, List.sum_append, List.map_cons,
                  List.map_nil, List.sum_cons, List.sum_nil]
                rw [u32sub_foldl _ _ hsum hlen]
                omega

/-- C2 witness: interleaving child `c(k, l, m)` under parent `p(k, l)`
(itself interleaved in `g`, one column consumed) appends the entry
`(p, primary, 1)` to the inherited chain `[(g, primary, 1)]`; the prefix
lengths sum to `p`'s two primary-key columns. -/
theorem addInterleave_ancestor_chain_witness :
    addInterleave [wGrand, wParent] wChild wChild.primaryIndex
        { parent := "p", fields := ["k", "l"], dropBehavior := .dropDefault } =
      .ok { wChild.primaryIndex with
              interleaveAncestors :=
                [{ tableID := 3, indexID := 1, sharedPrefixLen := 1 },
                 { tableID := 4, indexID := 1, sharedPrefixLen := 1 }] }
    ∧ ([{ tableID := 3, indexID := 1, sharedPrefixLen := 1 },
        { tableID := 4, indexID := 1, sharedPrefixLen := 1 }] :
          List InterleaveAncestor) =
        wParent.primaryIndex.interleaveAncestors ++
          [{ tableID := wParent.id, indexID := wParent.primaryIndex.id,
             sharedPrefixLen := wParent.primaryIndex.columnIDs.length -
               (wParent.primaryIndex.interleaveAncestors.map (·.sharedPrefixLen)).sum }] := by
  constructor
  · rfl
  · have h := addInterleave_ancestor_chain [wGrand, wParent] wChild
      wChild.primaryIndex
      { wChild.primaryIndex with
          interleaveAncestors :=
            [{ tableID := 3, indexID := 1, sharedPrefixLen := 1 },
             { tableID := 4, indexID := 1, sharedPrefixLen := 1 }] }
      { parent := "p", fields := ["k", "l"], dropBehavior := .dropDefault }
      wParent (by decide) (by decide) (by decide) (by rfl)
    exact h.1.symm

/-- The cleared half of one hoisting pass is the pointwise clearing of the
snapshot. -/
theorem hoistPass_fst (defs : List TableDef) :
    (hoistPass defs).1 = defs.map clearColumnCheck := by
  induction defs with
  | nil => rfl
  | cons d rest ih =>
      cases d with
      | column c =>
          cases hc : c.checkExpr with
          | none =>
              simp [hoistPass, hc, ih, clearColumnCheck]
              cases c
              simp_all
          | some e => simp [hoistPass, hc, ih, clearColumnCheck]
      | checkConstraint nm e => simp [hoistPass, ih, clearColumnCheck]

/-- The appended half of one hoisting pass extracts each inline CHECK as a
table-level constraint def, in column order. -/
theorem hoistPass_snd (defs : List TableDef) :
    (hoistPass defs).2 = defs.filterMap extractColumnCheck := by
  induction defs with
  | nil => rfl
  | cons d rest ih =>
      cases d with
      | column c =>
          cases hc : c.checkExpr with
          | none => simp [hoistPass, hc, ih, extractColumnCheck]
          | some e =>
              simp [hoistPass, hc, ih, extractColumnCheck]
              intro h; rw [h]
      | checkConstraint nm e => simp [hoistPass, ih, extractColumnCheck]

/-- `hoistConstraints` in closed form. -/
theorem hoistConstraints_eq (defs : List TableDef) :
    hoistConstraints defs = defs.map clearColumnCheck ++ defs.filterMap extractColumnCheck := by
  unfold hoistConstraints
  rw [← hoistPass_fst, ← hoistPass_snd]

theorem clearColumnCheck_idem (d : TableDef) :
    clearColumnCheck (clearColumnCheck d) = clearColumnCheck d := by
  cases d <;> simp [clearColumnCheck]

theorem extractColumnCheck_clear (d : TableDef) :
    extractColumnCheck (clearColumnCheck d) = none := by
  cases d <;> simp [clearColumnCheck, extractColumnCheck]

theorem extract_mem_shape (defs : List TableDef) (x : TableDef)
    (hx : x ∈ defs.filterMap extractColumnCheck) :
    ∃ nm e, x = .checkConstraint nm e := by
  obtain ⟨d, _, hd⟩ := List.mem_filterMap.mp hx
  cases d with
  | column c =>
      simp [extractColumnCheck] at hd
      obtain ⟨e, _, he⟩ := hd
      exact ⟨c.checkConstraintName, e, he.symm⟩
  | checkConstraint nm e => simp [extractColumnCheck] at hd

/-- `declaredAtTableLevel` is idempotent: a definition list whose CHECKs are
already at table level is untouched. -/
theorem declaredAtTableLevel_idem (defs : List TableDef) :
    declaredAtTableLevel (declaredAtTableLevel defs) = declaredAtTableLevel defs := by
  unfold declaredAtTableLevel
  rw [List.map_append, List.filterMap_append]
  have h1 : (defs.map clearColumnCheck).map clearColumnCheck = defs.map clearColumnCheck := by
    rw [List.map_map]
    exact List.map_congr_left (fun d _ => clearColumnCheck_idem d)
  have h2 : (defs.filterMap extractColumnCheck).map clearColumnCheck =
      defs.filterMap extractColumnCheck := by
    have hpt : ∀ x ∈ defs.filterMap extractColumnCheck, clearColumnCheck x = id x := by
      intro x hx
      obtain ⟨nm, e, hs⟩ := extract_mem_shape defs x hx
      subst hs; rfl
    rw [List.map_congr_left hpt, List.map_id]
  have h3 : (defs.map clearColumnCheck).filterMap extractColumnCheck = [] := by
    rw [List.filterMap_map]
    apply List.filterMap_eq_nil.mpr
    intro d _
    exact extractColumnCheck_clear d
  have h4 : (defs.filterMap extractColumnCheck).filterMap extractColumnCheck = [] := by
    apply List.filterMap_eq_nil.mpr
    intro x hx
    obtain ⟨nm, e, hs⟩ := extract_mem_shape defs x hx
    subst hs; rfl
  rw [h1, h2, h3, h4]
  simp

/-- The table-level constraint extractor of `makeTableDesc`. -/
theorem makeTableDesc_checks (name : String) (pid : Nat) (defs : List TableDef) :
    (makeTableDesc name pid defs).checks = defs.filterMap (fun d =>
      match d with
      | .checkConstraint nm e => some (nm, e)
      | _ => none) := rfl

/-- `ensurePrimaryKey` and `allocateIDs` never touch the constraint list. -/
theorem createTableDesc_checks (name : String) (pid : Nat) (defs : List TableDef) :
    (createTableDesc name pid defs).checks =
      (makeTableDesc name pid (hoistConstraints defs)).checks := by
  unfold createTableDesc allocateIDs ensurePrimaryKey addColumn addPrimaryIndex
  split <;> rfl

/-- C8: hoisting turns each column-level CHECK into one table-level CHECK
with the same expression and constraint name appended at the end, clearing
the column's own CheckExpr — the definition list after hoisting is exactly
the one of an equivalent CREATE TABLE whose CHECKs were declared at table
level from the start, and consequently the constructed descriptor carries
identical table-level constraints. -/
theorem hoistConstraints_refines (name : String) (pid : Nat) (defs : List TableDef) :
    hoistConstraints defs = declaredAtTableLevel defs
    ∧ (∀ c, TableDef.column c ∈ hoistConstraints defs → c.checkExpr = none)
    ∧ (createTableDesc name pid defs).checks =
        (createTableDesc name pid (declaredAtTableLevel defs)).checks := by
  refine ⟨hoistConstraints_eq defs, ?_, ?_⟩
  · intro c hc
    rw [hoistConstraints_eq defs] at hc
    rcases List.mem_append.mp hc with h | h
    · obtain ⟨d, _, hd⟩ := List.mem_map.mp h
      cases d with
      | column c0 =>
          simp [clearColumnCheck] at hd
          rw [← hd]
      | checkConstraint nm e => simp [clearColumnCheck] at hd
    · obtain ⟨nm, e, hs⟩ := extract_mem_shape defs _ h
      simp at hs
  · rw [createTableDesc_checks, createTableDesc_checks,
        hoistConstraints_eq defs, ← declaredAtTableLevel.eq_def,
        hoistConstraints_eq (declaredAtTableLevel defs), ← declaredAtTableLevel.eq_def,
        declaredAtTableLevel_idem]

/-- All columns built by `makeTableDesc` are visible (only the synthesized
`rowid` is ever hidden). -/
theorem makeTableDesc_cols_visible (name : String) (pid : Nat) (defs : List TableDef) :
    ∀ c ∈ (makeTableDesc name pid defs).columns, c.hidden = false := by
  intro c hc
  unfold makeTableDesc at hc
  simp only at hc
  obtain ⟨d, _, hd⟩ := List.mem_filterMap.mp hc
  cases d with
  | column c0 => simp at hd; rw [← hd]
  | checkConstraint nm e => simp at hd

/-- With no column marked PRIMARY KEY, `makeTableDesc` leaves the primary
index empty. -/
theorem makeTableDesc_pk_empty (name : String) (pid : Nat) (defs : List TableDef)
    (h : ∀ c, TableDef.column c ∈ defs → c.primaryKey = false) :
    (makeTableDesc name pid defs).primaryIndex.columnNames = [] := by
  unfold makeTableDesc
  simp only
  apply List.filterMap_eq_nil.mpr
  intro d hd
  cases d with
  | column c => simp [h c hd]
  | checkConstraint nm e => rfl

/-- Hoisting preserves the absence of PRIMARY KEY markers. -/
theorem hoist_preserves_nopk (defs : List TableDef)
    (h : ∀ c, TableDef.column c ∈ defs → c.primaryKey = false) :
    ∀ c, TableDef.column c ∈ hoistConstraints defs → c.primaryKey = false := by
  intro c hc
  rw [hoistConstraints_eq defs] at hc
  rcases List.mem_append.mp hc with hm | hm
  · obtain ⟨d, hdm, hd⟩ := List.mem_map.mp hm
    cases d with
    | column c0 =>
        simp [clearColumnCheck] at hd
        rw [← hd]; exact h c0 hdm
    | checkConstraint nm e => simp [clearColumnCheck] at hd
  · obtain ⟨nm, e, hs⟩ := extract_mem_shape defs _ hm
    simp at hs

/-- Numbering splits over append. -/
theorem numberCols_append (l1 l2 : List ColumnDescriptor) :
    ∀ n, numberCols n (l1 ++ l2) = numberCols n l1 ++ numberCols (n + l1.length) l2 := by
  induction l1 with
  | nil => intro n; simp [numberCols]
  | cons c rest ih =>
      intro n
      simp only [List.cons_append, numberCols, List.length_cons, List.append_eq]
      rw [ih (n + 1)]
      have harith : n + 1 + rest.length = n + (rest.length + 1) := by omega
      rw [harith]

/-- Numbering visible columns yields no hidden column. -/
theorem numberCols_filter_hidden (l : List ColumnDescriptor)
    (h : ∀ c ∈ l, c.hidden = false) :
    ∀ n, (numberCols n l).filter (·.hidden) = [] := by
  induction l with
  | nil => intro n; rfl
  | cons c rest ih =>
      intro n
      simp only [numberCols, List.filter_cons]
      have hc : c.hidden = false := h c (by simp)
      rw [if_neg (by simp [hc])]
      exact ih (fun c hm => h c (by simp [hm])) (n + 1)

/-- C4: a CREATE TABLE with no explicit primary key produces exactly one
hidden column — `rowid`, of kind INT, non-nullable, defaulting to
`unique_rowid()` — and the primary index is unique over that single column,
ascending. -/
theorem createTable_rowid (name : String) (pid : Nat) (defs : List TableDef)
    (hnopk : ∀ c, TableDef.column c ∈ defs → c.primaryKey = false) :
    ((createTableDesc name pid defs).columns.filter (·.hidden)).map (·.name) = ["rowid"]
    ∧ ((createTableDesc name pid defs).columns.filter (·.hidden)).map (·.type) =
        [{ kind := .INT }]
    ∧ ((createTableDesc name pid defs).columns.filter (·.hidden)).map (·.nullable) = [false]
    ∧ ((createTableDesc name pid defs).columns.filter (·.hidden)).map (·.defaultExpr) =
        [some "unique_rowid()"]
    ∧ (createTableDesc name pid defs).primaryIndex.unique = true
    ∧ (createTableDesc name pid defs).primaryIndex.columnNames = ["rowid"]
    ∧ (createTableDesc name pid defs).primaryIndex.columnDirections = [IndexDir.ASC] := by
  have hpk : (makeTableDesc name pid (hoistConstraints defs)).primaryIndex.columnNames = [] :=
    makeTableDesc_pk_empty name pid _ (hoist_preserves_nopk defs hnopk)
  have hvis : ∀ c ∈ (makeTableDesc name pid (hoistConstraints defs)).columns,
      c.hidden = false := makeTableDesc_cols_visible name pid _
  unfold createTableDesc ensurePrimaryKey
  rw [hpk]
  simp only [List.length_nil, allocateIDs, addColumn, addPrimaryIndex, if_pos]
  rw [numberCols_append]
  rw [List.filter_append, numberCols_filter_hidden _ hvis]
  simp [numberCols, emptyIndex]

/-- C4 witness: a one-column table with no declared primary key gets the
hidden `rowid` primary key. -/
theorem createTable_rowid_witness :
    (((createTableDesc "t" 1 [TableDef.column wColDef]).columns.filter (·.hidden)).map
        (·.name) = ["rowid"])
    ∧ (createTableDesc "t" 1 [TableDef.column wColDef]).primaryIndex.columnNames =
        ["rowid"] := by
  have h := createTable_rowid "t" 1 [TableDef.column wColDef]
    (by intro c hc; simp at hc; rw [hc]; rfl)
  exact ⟨h.1, h.2.2.2.2.2.1⟩

/-! ## Lemmas on the forward-reference attachment -/

/-- Stripping the forward reference keeps the ID. -/
theorem stripFK_id (i : IndexDescriptor) : (stripFK i).id = i.id := rfl

/-- Under a duplicate-free key list, searching by a member's key finds that
member. -/
theorem find_key_of_mem {α β : Type} [BEq β] [LawfulBEq β] (f : α → β)
    (l : List α) (a : α) (hm : a ∈ l) (hnd : (l.map f).Nodup) :
    l.find? (fun x => f x == f a) = some a := by
  induction l with
  | nil => simp at hm
  | cons b rest ih =>
      rcases List.mem_cons.mp hm with hh | hh
      · subst hh; simp [List.find?_cons]
      · simp only [List.find?_cons]
        have hbne : f b ≠ f a := by
          intro hc
          exact (List.nodup_cons.mp hnd).1 (hc ▸ List.mem_map_of_mem f hh)
        have : (f b == f a) = false := by simp [hbne]
        rw [this]
        exact ih hh (List.nodup_cons.mp hnd).2

/-- `findIndexByID` finds a member index by its own ID when IDs are
duplicate-free. -/
theorem findIndexByID_of_mem (t : TableDescriptor) (i0 : IndexDescriptor)
    (hm : i0 ∈ allIndexes t) (hnd : (idsOf t).Nodup) :
    findIndexByID t i0.id = some i0 := by
  unfold findIndexByID
  exact find_key_of_mem (fun i => i.id) (allIndexes t) i0 hm (by simpa [idsOf] using hnd)

/-- Attachment fails exactly when no list element has the column as leading
key column. -/
theorem attachToFirst_none_iff (ref : ForeignKeyReference) (cid : Nat)
    (l : List IndexDescriptor) :
    attachToFirst ref cid l = none ↔
      l.find? (fun i => i.columnIDs.head? == some cid) = none := by
  induction l with
  | nil => simp [attachToFirst]
  | cons i rest ih =>
      by_cases h : i.columnIDs.head? = some cid
      · simp [attachToFirst, h, List.find?_cons]
      · simp [attachToFirst, h, List.find?_cons, ih]

/-- Successful attachment rewrites exactly the first index whose leading key
column matches: that index's ID is returned, the foreign-key-stripped list
is unchanged, and — when IDs are unique — lookup by ID sees the new forward
reference on that index only. -/
theorem attachToFirst_some_spec (ref : ForeignKeyReference) (cid : Nat) :
    ∀ (l l' : List IndexDescriptor) (sid : Nat),
    attachToFirst ref cid l = some (l', sid) →
    ∃ i0, i0 ∈ l ∧ i0.columnIDs.head? = some cid ∧ sid = i0.id ∧
      l.find? (fun i => i.columnIDs.head? == some cid) = some i0 ∧
      l'.map stripFK = l.map stripFK ∧
      ((l.map (·.id)).Nodup →
        ∀ j, l'.find? (fun i => i.id == j) =
          if j = i0.id then some { i0 with foreignKey := some ref }
          else l.find? (fun i => i.id == j)) := by
  intro l
  induction l with
  | nil => intro l' sid h; simp [attachToFirst] at h
  | cons i rest ih =>
      intro l' sid h
      by_cases hm : i.columnIDs.head? = some cid
      · simp only [attachToFirst, if_pos hm, Option.some.injEq] at h
        obtain ⟨hl, hs⟩ := Prod.mk.injEq .. ▸ h
        refine ⟨i, by simp, hm, hs.symm, by simp [List.find?_cons, hm], ?_, ?_⟩
        · rw [← hl]; simp [stripFK]
        · intro _ j
          rw [← hl]
          by_cases hj : j = i.id
          · subst hj
            simp [List.find?_cons]
          · simp only [List.find?_cons]
            have h1 : (({ i with foreignKey := some ref } : IndexDescriptor).id == j) = false := by
              simp [Ne.symm hj]
            rw [h1, if_neg hj]
      · simp only [attachToFirst, if_neg hm] at h
        cases hrec : attachToFirst ref cid rest with
        | none => rw [hrec] at h; exact Option.noConfusion h
        | some p =>
            rw [hrec] at h
            simp only [Option.map_some', Option.some.injEq] at h
            obtain ⟨l'', sid'⟩ := p
            obtain ⟨hl, hs⟩ := Prod.mk.injEq .. ▸ h
            obtain ⟨i0, hmem, hhead, hsid, hfind, hstrip, hfid⟩ := ih l'' sid' hrec
            refine ⟨i0, by simp [hmem], hhead, by rw [← hs, hsid], ?_, ?_, ?_⟩
            · simp [List.find?_cons, hm, hfind]
            · rw [← hl]; simp [hstrip]
            · intro hnd j
              have hndr : (rest.map (·.id)).Nodup := (List.nodup_cons.mp hnd).2
              have hni : i.id ∉ rest.map (·.id) := (List.nodup_cons.mp hnd).1
              rw [← hl]
              by_cases hj : j = i0.id
              · subst hj
                have hii : i.id ≠ i0.id := by
                  intro hc
                  exact hni (hc ▸ List.mem_map_of_mem (·.id) hmem)
                simp only [List.find?_cons]
                have : (i.id == i0.id) = false := by simp [hii]
                rw [this, hfid hndr i0.id, if_pos rfl]
                rfl
              · simp only [List.find?_cons]
                cases hcase : (i.id == j) with
                | false =>
                    rw [hfid hndr j, if_neg hj]
                | true =>
                    rw [if_neg hj]

/-- Source attachment fails exactly when no index (primary included) has the
column as leading key column. -/
theorem attachFKToSource_none_iff (tbl : TableDescriptor) (cid : Nat)
    (ref : ForeignKeyReference) :
    attachFKToSource tbl cid ref = none ↔ firstIndexOnCol tbl cid = none := by
  unfold attachFKToSource firstIndexOnCol allIndexes
  by_cases hm : tbl.primaryIndex.columnIDs.head? = some cid
  · simp [hm, List.find?_cons]
  · simp only [if_neg hm, List.find?_cons]
    have : (tbl.primaryIndex.columnIDs.head? == some cid) = false := by simp [hm]
    rw [this]
    cases hatt : attachToFirst ref cid tbl.indexes with
    | none =>
        rw [attachToFirst_none_iff] at hatt
        simp [hatt]
    | some p =>
        have : tbl.indexes.find? (fun i => i.columnIDs.head? == some cid) ≠ none := by
          obtain ⟨i0, _, _, _, hfind, _, _⟩ := attachToFirst_some_spec ref cid _ _ _ hatt
          simp [hfind]
        simp only [Option.map_some]
        constructor
        · intro hc; simp at hc
        · intro hc
          exact absurd (by simpa using hc) this

/-- Successful source attachment: the forward reference lands on the
smallest-ordinal index whose leading key column is the source column
(primary index first); everything else — and everything but the foreign
key — is untouched. -/
theorem attachFKToSource_some_spec (tbl : TableDescriptor) (cid : Nat)
    (ref : ForeignKeyReference) (tbl1 : TableDescriptor) (sid : Nat)
    (h : attachFKToSource tbl cid ref = some (tbl1, sid)) :
    firstIndexOnCol tbl cid = some sid ∧
    (allIndexes tbl1).map stripFK = (allIndexes tbl).map stripFK ∧
    tbl1.columns = tbl.columns ∧ tbl1.id = tbl.id ∧ tbl1.name = tbl.name ∧
    tbl1.state = tbl.state ∧ tbl1.mutations = tbl.mutations ∧
    ((idsOf tbl).Nodup →
      ∀ j, findIndexByID tbl1 j =
        if j = sid then (findIndexByID tbl sid).map (fun i => { i with foreignKey := some ref })
        else findIndexByID tbl j) := by
  unfold attachFKToSource at h
  by_cases hm : tbl.primaryIndex.columnIDs.head? = some cid
  · rw [if_pos hm] at h
    simp only [Option.some.injEq] at h
    obtain ⟨hl, hs⟩ := Prod.mk.injEq .. ▸ h
    refine ⟨?_, ?_, ?_, ?_, ?_, ?_, ?_, ?_⟩
    · unfold firstIndexOnCol allIndexes
      simp [List.find?_cons, hm, hs]
    · rw [← hl]; simp [allIndexes, stripFK]
    · rw [← hl]
    · rw [← hl]
    · rw [← hl]
    · rw [← hl]
    · rw [← hl]
    · intro _ j
      rw [← hl, ← hs]
      unfold findIndexByID allIndexes
      by_cases hj : j = tbl.primaryIndex.id
      · subst hj
        simp [List.find?_cons]
      · simp only [List.find?_cons]
        have h1 : (({ tbl.primaryIndex with foreignKey := some ref } :
            IndexDescriptor).id == j) = false := by simp [Ne.symm hj]
        rw [if_neg hj, h1]
  · rw [if_neg hm] at h
    cases hatt : attachToFirst ref cid tbl.indexes with
    | none => rw [hatt] at h; exact Option.noConfusion h
    | some p =>
        rw [hatt] at h
        obtain ⟨l', sid'⟩ := p
        simp only [Option.map_some', Option.some.injEq] at h
        obtain ⟨hl, hs⟩ := Prod.mk.injEq .. ▸ h
        obtain ⟨i0, hmem, hhead, hsid, hfind, hstrip, hfid⟩ :=
          attachToFirst_some_spec ref cid _ _ _ hatt
        have hpne : (tbl.primaryIndex.columnIDs.head? == some cid) = false := by simp [hm]
        refine ⟨?_, ?_, ?_, ?_, ?_, ?_, ?_, ?_⟩
        · unfold firstIndexOnCol allIndexes
          simp only [List.find?_cons, hpne]
          simp [hfind, ← hs, hsid]
        · rw [← hl]; simp [allIndexes, hstrip]
        · rw [← hl]
        · rw [← hl]
        · rw [← hl]
        · rw [← hl]
        · rw [← hl]
        · intro hnd j
          have hndi : (tbl.indexes.map (·.id)).Nodup := by
            have := hnd
            unfold idsOf allIndexes at this
            exact (List.nodup_cons.mp (by simpa using this)).2
          have hnip : tbl.primaryIndex.id ∉ tbl.indexes.map (·.id) := by
            have := hnd
            unfold idsOf allIndexes at this
            exact (List.nodup_cons.mp (by simpa using this)).1
          have hpi : tbl.primaryIndex.id ≠ i0.id := by
            intro hc
            exact hnip (hc ▸ List.mem_map_of_mem (·.id) hmem)
          have hfi0 : tbl.indexes.find? (fun i => i.id == i0.id) = some i0 :=
            find_key_of_mem (·.id) tbl.indexes i0 hmem hndi
          rw [← hl, ← hs, hsid]
          unfold findIndexByID allIndexes
          by_cases hj : j = i0.id
          · subst hj
            have h1 : (tbl.primaryIndex.id == i0.id) = false := by simp [hpi]
            simp only [List.find?_cons, h1, hfid hndi i0.id, hfi0]
            simp
          · simp only [List.find?_cons]
            cases hcase : (tbl.primaryIndex.id == j) with
            | false => rw [hfid hndi j, if_neg hj, if_neg hj]
            | true => rw [if_neg hj]

/-- What a successful target-table lookup says. -/
theorem resolveTargetTable_ok (env : Env) (tbl : TableDescriptor) (name : String)
    (target : TableDescriptor) (b : Bool)
    (h : resolveTargetTable env tbl name = .ok (target, b)) :
    (b = false → target ∈ env) ∧ (b = true → target = tbl ∧ name = tbl.name) := by
  unfold resolveTargetTable at h
  cases hg : envGetByName env name with
  | some t =>
      rw [hg] at h
      simp only [Except.ok.injEq, Prod.mk.injEq] at h
      obtain ⟨h1, h2⟩ := h
      subst h1; subst h2
      exact ⟨fun _ => List.mem_of_find?_eq_some hg, fun hc => by simp at hc⟩
  | none =>
      rw [hg] at h
      by_cases hn : name = tbl.name
      · rw [if_pos hn] at h
        simp only [Except.ok.injEq, Prod.mk.injEq] at h
        obtain ⟨h1, h2⟩ := h
        subst h1; subst h2
        exact ⟨fun hc => by simp at hc, fun _ => ⟨rfl, hn⟩⟩
      · rw [if_neg hn] at h
        exact Except.noConfusion h

/-- Full characterization of a successful `resolveColFK`: every intermediate
lookup succeeded, the pending update records the resolved target table and
index, and the table was rewritten by exactly one forward-reference
attachment (with a non-empty constraint name) plus the ADD state flag. -/
theorem resolveColFK_ok_spec (env : Env) (tbl : TableDescriptor) (d : FKDecl)
    (tbl' : TableDescriptor) (u : FKTargetUpdate)
    (hok : resolveColFK env tbl d = .ok (tbl', u)) :
    ∃ src target targetColName targetCol nm tbl1,
      findActiveColumnByName tbl d.fromCol = some src ∧
      resolveTargetTable env tbl d.targetTable = .ok (target, u.targetSelf) ∧
      resolveTargetColName target d.targetTable d.targetCol = .ok targetColName ∧
      findActiveColumnByName target targetColName = some targetCol ∧
      src.type.kind = targetCol.type.kind ∧
      findTargetIdx target targetCol.id = some u.targetIdx ∧
      u.targetID = target.id ∧
      nm ≠ "" ∧
      attachFKToSource tbl src.id
          { table := target.id, index := u.targetIdx, name := nm } = some (tbl1, u.srcIdx) ∧
      tbl' = { tbl1 with state := .ADD } := by
  unfold resolveColFK at hok
  split at hok
  · exact Except.noConfusion hok
  next src h1 =>
  split at hok
  next e h2 => exact Except.noConfusion hok
  next target targetSelf h2 =>
  split at hok
  next e h3 => exact Except.noConfusion hok
  next targetColName h3 =>
  split at hok
  · exact Except.noConfusion hok
  next targetCol h4 =>
  split at hok
  · exact Except.noConfusion hok
  next h5 =>
  split at hok
  · exact Except.noConfusion hok
  next targetIdx h6 =>
  split at hok
  · exact Except.noConfusion hok
  next tbl1 srcIdx h7 =>
  simp only [Except.ok.injEq, Prod.mk.injEq] at hok
  obtain ⟨ht, hu⟩ := hok
  have h5' : src.type.kind = targetCol.type.kind := by
    by_contra hc
    exact h5 hc
  refine ⟨src, target, targetColName, targetCol,
    (if d.constraintName = "" then
      "fk_" ++ d.fromCol ++ "_ref_" ++ target.name ++ "_" ++ targetColName
     else d.constraintName), tbl1,
    h1, ?_, h3, h4, h5', ?_, ?_, ?_, ?_, ?_⟩
  · rw [← hu]; exact h2
  · rw [← hu]; exact h6
  · rw [← hu]
  · by_cases hc : d.constraintName = ""
    · rw [if_pos hc]
      intro hz
      have := congrArg String.length hz
      simp [String.length_append] at this
      exact absurd this.1.1.1.1.1 (by decide)
    · rw [if_neg hc]
      exact hc
  · rw [← hu]; exact h7
  · exact ht.symm

/-- A found first-index-on-column is a member index with that leading
column. -/
theorem firstIndexOnCol_some (t : TableDescriptor) (cid sid : Nat)
    (h : firstIndexOnCol t cid = some sid) :
    ∃ i0 ∈ allIndexes t, i0.id = sid ∧ i0.columnIDs.head? = some cid := by
  unfold firstIndexOnCol at h
  cases hf : (allIndexes t).find? (fun i => i.columnIDs.head? == some cid) with
  | none => rw [hf] at h; exact Option.noConfusion h
  | some i0 =>
      rw [hf] at h
      simp only [Option.map_some', Option.some.injEq] at h
      refine ⟨i0, List.mem_of_find?_eq_some hf, h, ?_⟩
      have := List.find?_some hf
      simpa using this

/-- The secondary-index scan of the target search returns the head of the
eligible list. -/
theorem findUniqueIndexOnCol_eq_head (cid : Nat) (l : List IndexDescriptor) :
    findUniqueIndexOnCol l cid =
      ((l.filter (fun i => i.unique && i.columnIDs.head? == some cid)).map (·.id)).head? := by
  induction l with
  | nil => rfl
  | cons i rest ih =>
      by_cases hm : (i.unique && i.columnIDs.head? == some cid) = true
      · simp [findUniqueIndexOnCol, List.filter_cons, hm]
      · simp only [findUniqueIndexOnCol, List.filter_cons, hm]
        simp only [Bool.not_eq_true] at hm
        rw [if_neg (by simp [hm])]
        simpa [hm] using ih

/-- C6 counterexample: against a target with two eligible unique indexes on
the named column, `resolveColFK` succeeds and silently uses the first — the
claim's "fails when more than one exists" is false on the code. -/
theorem resolveColFK_ambiguity_counterexample :
    (eligibleUniqueIndexes wAmb 2).length = 2
    ∧ ((resolveColFK [wAmb] wSrc
          { fromCol := "p", targetTable := "amb", targetCol := "b",
            constraintName := "" }).toOption.map (fun p => p.2.targetIdx)) = some 2 := by
  constructor
  · decide
  · rfl

/-- C6 (amended): with no target column named, the target's primary index is
used only when single-column, else the call fails (as claimed); with a
target column named, resolution takes the primary index when its leading
column matches and otherwise the FIRST eligible unique index in ordinal
order — failing only when no eligible index exists, with no ambiguity error
when several exist. -/
theorem resolveColFK_target_index_selection
    (envA : Env) (tblA targetA : TableDescriptor) (dA : FKDecl) (srcA : ColumnDescriptor)
    (envB : Env) (tblB targetB : TableDescriptor) (dB : FKDecl)
    (srcB tcB : ColumnDescriptor)
    (envC : Env) (tblC targetC : TableDescriptor) (dC : FKDecl) (tcC : ColumnDescriptor)
    (jC : Nat) (targetD : TableDescriptor) (cidD : Nat) :
    (findActiveColumnByName tblA dA.fromCol = some srcA →
      envGetByName envA dA.targetTable = some targetA →
      dA.targetCol = "" →
      targetA.primaryIndex.columnNames.length ≠ 1 →
      resolveColFK envA tblA dA =
        .error ("must specify a single unique column to reference \"" ++
                dA.targetTable ++ "\""))
    ∧ (findActiveColumnByName tblB dB.fromCol = some srcB →
      envGetByName envB dB.targetTable = some targetB →
      dB.targetCol ≠ "" →
      findActiveColumnByName targetB dB.targetCol = some tcB →
      srcB.type.kind = tcB.type.kind →
      findTargetIdx targetB tcB.id = none →
      resolveColFK envB tblB dB =
        .error ("foreign key requires a unique index on " ++
                dB.targetTable ++ "." ++ tcB.name))
    ∧ (envGetByName envC dC.targetTable = some targetC →
      dC.targetCol ≠ "" →
      findActiveColumnByName targetC dC.targetCol = some tcC →
      findTargetIdx targetC tcC.id = some jC →
      ∀ tbl' u, resolveColFK envC tblC dC = .ok (tbl', u) → u.targetIdx = jC)
    ∧ (targetD.primaryIndex.unique = true →
      findTargetIdx targetD cidD = (eligibleUniqueIndexes targetD cidD).head?) := by
  refine ⟨?_, ?_, ?_, ?_⟩
  · intro h1 h2 h3 h4
    simp [resolveColFK, h1, resolveTargetTable, h2, resolveTargetColName, h3, h4]
  · intro h1 h2 h3 h4 h5 h6
    simp [resolveColFK, h1, resolveTargetTable, h2, resolveTargetColName, h3, h4, h5, h6]
  · intro h2 h3 h4 h6 tbl' u hok
    obtain ⟨src, target, targetColName, targetCol, nm, tbl1,
      g1, g2, g3, g4, g5, g6, g7, g8, g9, g10⟩ :=
      resolveColFK_ok_spec envC tblC dC tbl' u hok
    have htgt : target = targetC ∧ u.targetSelf = false := by
      unfold resolveTargetTable at g2
      rw [h2] at g2
      simp only [Except.ok.injEq, Prod.mk.injEq] at g2
      exact ⟨g2.1.symm, g2.2.symm⟩
    obtain ⟨htgt, _⟩ := htgt
    subst htgt
    have hcol : targetColName = dC.targetCol := by
      unfold resolveTargetColName at g3
      rw [if_neg h3] at g3
      simpa using g3.symm
    subst hcol
    rw [h4] at g4
    have htc : targetCol = tcC := by simpa using g4.symm
    subst htc
    rw [h6] at g6
    simpa using g6.symm
  · intro hD
    unfold findTargetIdx eligibleUniqueIndexes allIndexes
    by_cases hm : targetD.primaryIndex.columnIDs.head? = some cidD
    · simp [List.filter_cons, hD, hm]
    · simp only [List.filter_cons]
      rw [if_neg hm]
      have : (targetD.primaryIndex.unique &&
          targetD.primaryIndex.columnIDs.head? == some cidD) = false := by
        simp [hm]
      rw [this]
      simp only [Bool.false_eq_true, if_neg (by simp : ¬False)]
      exact findUniqueIndexOnCol_eq_head cidD targetD.indexes

/-- C6 witness: the amended selection rules at concrete inputs — unnamed
column against a two-column primary key errors; a named column with no
eligible unique index errors; a named column picks the first eligible index;
and the eligible-list head computation agrees. -/
theorem resolveColFK_target_index_selection_witness :
    resolveColFK [wParent] wSrc
        { fromCol := "p", targetTable := "p", targetCol := "", constraintName := "" } =
      .error ("must specify a single unique column to reference \"" ++ "p" ++ "\"")
    ∧ resolveColFK [wXyz] wSrc
        { fromCol := "p", targetTable := "xyz", targetCol := "y", constraintName := "" } =
      .error ("foreign key requires a unique index on " ++ "xyz" ++ "." ++ "y")
    ∧ ((resolveColFK [wAmb] wSrc
          { fromCol := "p", targetTable := "amb", targetCol := "b",
            constraintName := "" }).toOption.map (fun p => p.2.targetIdx)) = some 2
    ∧ findTargetIdx wAmb 2 = (eligibleUniqueIndexes wAmb 2).head? := by
  obtain ⟨hA, hB, hC, hD⟩ := resolveColFK_target_index_selection
    [wParent] wSrc wParent
      { fromCol := "p", targetTable := "p", targetCol := "", constraintName := "" }
      (wCol 1 "p")
    [wXyz] wSrc wXyz
      { fromCol := "p", targetTable := "xyz", targetCol := "y", constraintName := "" }
      (wCol 1 "p") (wCol 2 "y")
    [wAmb] wSrc wAmb
      { fromCol := "p", targetTable := "amb", targetCol := "b", constraintName := "" }
      (wCol 2 "b") 2 wAmb 2
  refine ⟨hA (by rfl) (by rfl) (by rfl) (by decide),
         hB (by rfl) (by rfl) (by decide) (by rfl) (by rfl) (by rfl), ?_, hD (by rfl)⟩
  have := hC (by rfl) (by decide) (by rfl) (by rfl)
  rfl

/-- Changing only the table state changes no index view. -/
theorem fkView_state (t : TableDescriptor) (s : TableState) (j : Nat) :
    fkView { t with state := s } j = fkView t j := rfl

/-- C7: the forward reference is attached to the smallest-ordinal index of
the source table whose leading key column is the source column (the primary
index counting as smallest); when no index qualifies, the call fails with
the "must be the prefix of an index" error. -/
theorem resolveColFK_source_index_attachment
    (envA : Env) (tblA targetA : TableDescriptor) (dA : FKDecl)
    (srcA tcA : ColumnDescriptor) (jA : Nat)
    (envB : Env) (tblB targetB : TableDescriptor) (dB : FKDecl)
    (srcB : ColumnDescriptor) (jB : Nat) :
    (findActiveColumnByName tblA dA.fromCol = some srcA →
      envGetByName envA dA.targetTable = some targetA →
      dA.targetCol ≠ "" →
      findActiveColumnByName targetA dA.targetCol = some tcA →
      srcA.type.kind = tcA.type.kind →
      findTargetIdx targetA tcA.id = some jA →
      firstIndexOnCol tblA srcA.id = none →
      resolveColFK envA tblA dA =
        .error ("foreign key column \"" ++ srcA.name ++ "\" must be the prefix of an index"))
    ∧ ((idsOf tblB).Nodup →
      findActiveColumnByName tblB dB.fromCol = some srcB →
      envGetByName envB dB.targetTable = some targetB →
      firstIndexOnCol tblB srcB.id = some jB →
      ∀ tbl' u, resolveColFK envB tblB dB = .ok (tbl', u) →
        u.srcIdx = jB ∧
        (fkView tbl' jB).map (fun fk => (fk.table, fk.index)) =
          some (targetB.id, u.targetIdx)) := by
  constructor
  · intro h1 h2 h3 h4 h5 h6 h7
    have hatt : ∀ ref, attachFKToSource tblA srcA.id ref = none := by
      intro ref
      exact (attachFKToSource_none_iff tblA srcA.id ref).mpr h7
    simp [resolveColFK, h1, resolveTargetTable, h2, resolveTargetColName, h3, h4, h5, h6,
          hatt]
  · intro hnd h1 h2 hfirst tbl' u hok
    obtain ⟨src, target, targetColName, targetCol, nm, tbl1,
      g1, g2, g3, g4, g5, g6, g7, g8, g9, g10⟩ :=
      resolveColFK_ok_spec envB tblB dB tbl' u hok
    have hsrc : src = srcB := by
      rw [h1] at g1; simpa using g1.symm
    subst hsrc
    have htgt : target = targetB := by
      unfold resolveTargetTable at g2
      rw [h2] at g2
      simp only [Except.ok.injEq, Prod.mk.injEq] at g2
      exact g2.1.symm
    subst htgt
    obtain ⟨hfoc, hstrip, hcols, hid, hname, hstate, hmut, hfid⟩ :=
      attachFKToSource_some_spec tblB src.id _ tbl1 u.srcIdx g9
    have hsid : u.srcIdx = jB := by
      rw [hfoc] at hfirst
      simpa using hfirst
    subst hsid
    refine ⟨rfl, ?_⟩
    obtain ⟨i0, hi0mem, hi0id, _⟩ := firstIndexOnCol_some tblB src.id u.srcIdx hfirst
    have hfind0 : findIndexByID tblB u.srcIdx = some i0 := by
      rw [← hi0id]
      exact findIndexByID_of_mem tblB i0 hi0mem hnd
    rw [g10, fkView_state]
    unfold fkView
    rw [hfid hnd u.srcIdx, if_pos rfl, hfind0]
    simp

/-- C7 witness: `y REFERENCES abc(b)` on `wXyz` lands the forward reference
on the secondary index on `y` (the smallest-ordinal index led by `y`), and a
declaration on `z` — which leads no index of `wXyz` — fails with the
prefix-of-an-index error. -/
theorem resolveColFK_source_index_attachment_witness :
    resolveColFK [wAbc] wXyz
        { fromCol := "z", targetTable := "abc", targetCol := "b", constraintName := "" } =
      .error ("foreign key column \"" ++ "z" ++ "\" must be the prefix of an index")
    ∧ ((resolveColFK [wAbc] wXyz
          { fromCol := "y", targetTable := "abc", targetCol := "b",
            constraintName := "" }).toOption.map (fun p => p.2.srcIdx)) = some 2 := by
  obtain ⟨hA, hB⟩ := resolveColFK_source_index_attachment
    [wAbc] wXyz wAbc
      { fromCol := "z", targetTable := "abc", targetCol := "b", constraintName := "" }
      (wCol 3 "z") (wCol 2 "b") 2
    [wAbc] wXyz wAbc
      { fromCol := "y", targetTable := "abc", targetCol := "b", constraintName := "" }
      (wCol 2 "y") 2
  refine ⟨hA (by rfl) (by rfl) (by decide) (by rfl) (by rfl) (by rfl) (by rfl), ?_⟩
  have := hB (by decide) (by rfl) (by rfl) (by rfl)
  rfl

/-! ## Lemmas on in-place index and store updates -/

/-- Lookup after a first-match in-place rewrite of a list (ID preserved by
the rewrite). -/
theorem find_update_list (f : IndexDescriptor → IndexDescriptor) (id : Nat)
    (hf : ∀ i, (f i).id = i.id) :
    ∀ (l : List IndexDescriptor) (j : Nat),
      (updateIndexList f id l).find? (fun i => i.id == j) =
        if j = id then (l.find? (fun i => i.id == id)).map f
        else l.find? (fun i => i.id == j) := by
  intro l
  induction l with
  | nil => intro j; simp [updateIndexList]
  | cons i rest ih =>
      intro j
      unfold updateIndexList
      by_cases hh : i.id = id
      · rw [if_pos hh]
        by_cases hj : j = id
        · subst hj
          simp [List.find?_cons, hf, hh]
        · have hne : i.id ≠ j := fun hc => hj (hc ▸ hh)
          simp only [List.find?_cons]
          have h1 : ((f i).id == j) = false := by rw [hf]; simp [hne]
          have h2 : (i.id == j) = false := by simp [hne]
          rw [h1, h2, if_neg hj]
      · rw [if_neg hh]
        by_cases hj : j = id
        · subst hj
          simp only [List.find?_cons]
          have h2 : (i.id == j) = false := by simp [hh]
          rw [h2]
          simp only [if_true]
          have hih := ih j
          rw [if_pos rfl] at hih
          rw [hih]
        · simp only [List.find?_cons]
          cases hcase : (i.id == j) with
          | true => rw [if_neg hj]
          | false =>
              have hih := ih j
              rw [if_neg hj] at hih
              rw [hih, if_neg hj]

/-- Lookup after an in-place rewrite of one index of a table. -/
theorem findIndexByID_update (t : TableDescriptor) (id : Nat)
    (f : IndexDescriptor → IndexDescriptor) (hf : ∀ i, (f i).id = i.id) (j : Nat) :
    findIndexByID (updateIndexByID t id f) j =
      if j = id then (findIndexByID t id).map f else findIndexByID t j := by
  unfold updateIndexByID findIndexByID allIndexes
  by_cases hp : t.primaryIndex.id = id
  · simp only [if_pos hp, List.find?_cons]
    by_cases hj : j = id
    · subst hj
      have h1 : ((f t.primaryIndex).id == j) = true := by simp [hf, hp]
      have h2 : (t.primaryIndex.id == j) = true := by simp [hp]
      rw [h1, h2, if_pos rfl]
      rfl
    · rw [if_neg hj]
      have hne : t.primaryIndex.id ≠ j := fun hc => hj (hc.symm.trans hp)
      have h1 : ((f t.primaryIndex).id == j) = false := by rw [hf]; simp [hne]
      have h2 : (t.primaryIndex.id == j) = false := by simp [hne]
      rw [h1, h2]
  · simp only [if_neg hp, List.find?_cons]
    by_cases hj : j = id
    · subst hj
      have h2 : (t.primaryIndex.id == j) = false := by simp [hp]
      rw [h2, if_pos rfl]
      have := find_update_list f j hf t.indexes j
      rw [if_pos rfl] at this
      rw [this]
    · cases hcase : (t.primaryIndex.id == j) with
      | true => rw [if_neg hj]
      | false =>
          rw [if_neg hj]
          have := find_update_list f id hf t.indexes j
          rw [if_neg hj] at this
          rw [this]

/-- The table-level fields of an in-place index rewrite. -/
theorem updateIndexByID_fields (t : TableDescriptor) (id : Nat)
    (f : IndexDescriptor → IndexDescriptor) :
    (updateIndexByID t id f).id = t.id ∧ (updateIndexByID t id f).name = t.name ∧
    (updateIndexByID t id f).columns = t.columns ∧
    (updateIndexByID t id f).state = t.state ∧
    (updateIndexByID t id f).mutations = t.mutations := by
  unfold updateIndexByID
  split <;> exact ⟨rfl, rfl, rfl, rfl, rfl⟩

/-- In-place index rewrites keep the ID list. -/
theorem idsOf_update (t : TableDescriptor) (id : Nat)
    (f : IndexDescriptor → IndexDescriptor) (hf : ∀ i, (f i).id = i.id) :
    idsOf (updateIndexByID t id f) = idsOf t := by
  have hlist : ∀ l : List IndexDescriptor,
      (updateIndexList f id l).map (·.id) = l.map (·.id) := by
    intro l
    induction l with
    | nil => rfl
    | cons i rest ih =>
        unfold updateIndexList
        split
        · simp [hf]
        · simp [ih]
  unfold updateIndexByID idsOf allIndexes
  split
  · simp [hf]
  · simp [hlist]

/-- ID-list preservation, specialized to the back-reference append. -/
theorem idsOf_update_rb (t : TableDescriptor) (tid : Nat) (e : ForeignKeyReference) :
    idsOf (updateIndexByID t tid
      (fun i => { i with referencedBy := i.referencedBy ++ [e] })) = idsOf t :=
  idsOf_update t tid (fun i => { i with referencedBy := i.referencedBy ++ [e] })
    (fun i => rfl)

/-- ID-list preservation, specialized to the forward-reference repair. -/
theorem idsOf_update_fix (t : TableDescriptor) (sid nid : Nat) :
    idsOf (updateIndexByID t sid
      (fun i => { i with foreignKey := i.foreignKey.map (fun fk => { fk with table := nid }) })) =
      idsOf t :=
  idsOf_update t sid
    (fun i => { i with foreignKey := i.foreignKey.map (fun fk => { fk with table := nid }) })
    (fun i => rfl)

/-- Appending a back-reference to a present index appends to exactly that
index's view. -/
theorem rbView_append_update (t : TableDescriptor) (tid : Nat)
    (e : ForeignKeyReference) (i0 : IndexDescriptor)
    (hp : findIndexByID t tid = some i0) (j : Nat) :
    rbView (updateIndexByID t tid
        (fun i => { i with referencedBy := i.referencedBy ++ [e] })) j =
      if j = tid then rbView t j ++ [e] else rbView t j := by
  unfold rbView
  rw [findIndexByID_update t tid
    (fun i => { i with referencedBy := i.referencedBy ++ [e] }) (fun i => rfl) j]
  by_cases hj : j = tid
  · subst hj
    rw [if_pos rfl, if_pos rfl, hp]
    rfl
  · rw [if_neg hj, if_neg hj]

/-- Appending a back-reference changes no forward-reference view. -/
theorem fkView_append_update (t : TableDescriptor) (tid : Nat)
    (e : ForeignKeyReference) (j : Nat) :
    fkView (updateIndexByID t tid
        (fun i => { i with referencedBy := i.referencedBy ++ [e] })) j = fkView t j := by
  unfold fkView
  rw [findIndexByID_update t tid
    (fun i => { i with referencedBy := i.referencedBy ++ [e] }) (fun i => rfl) j]
  by_cases hj : j = tid
  · subst hj
    rw [if_pos rfl]
    cases findIndexByID t j <;> rfl
  · rw [if_neg hj]

/-- Repairing the forward reference's table ID rewrites exactly that
index's forward view. -/
theorem fkView_fix_update (t : TableDescriptor) (sid nid : Nat) (j : Nat) :
    fkView (updateIndexByID t sid
        (fun i => { i with foreignKey := i.foreignKey.map (fun fk => { fk with table := nid }) })) j =
      if j = sid then (fkView t j).map (fun fk => { fk with table := nid })
      else fkView t j := by
  unfold fkView
  rw [findIndexByID_update t sid
    (fun i => { i with foreignKey := i.foreignKey.map (fun fk => { fk with table := nid }) })
    (fun i => rfl) j]
  by_cases hj : j = sid
  · subst hj
    rw [if_pos rfl, if_pos rfl]
    cases findIndexByID t j with
    | none => rfl
    | some i0 => cases i0.foreignKey <;> rfl
  · rw [if_neg hj, if_neg hj]

/-- Repairing the forward reference changes no back-reference view. -/
theorem rbView_fix_update (t : TableDescriptor) (sid nid : Nat) (j : Nat) :
    rbView (updateIndexByID t sid
        (fun i => { i with foreignKey := i.foreignKey.map (fun fk => { fk with table := nid }) })) j =
      rbView t j := by
  unfold rbView
  rw [findIndexByID_update t sid
    (fun i => { i with foreignKey := i.foreignKey.map (fun fk => { fk with table := nid }) })
    (fun i => rfl) j]
  by_cases hj : j = sid
  · subst hj
    rw [if_pos rfl]
    cases findIndexByID t j <;> rfl
  · rw [if_neg hj]

/-- A by-ID store read returns a member carrying that ID. -/
theorem envGetByID_mem (env : Env) (id : Nat) (tgt : TableDescriptor)
    (h : envGetByID env id = some tgt) : tgt ∈ env ∧ tgt.id = id := by
  refine ⟨List.mem_of_find?_eq_some h, ?_⟩
  have := List.find?_some h
  simpa using this

/-- Duplicate-free keys make members with equal keys equal. -/
theorem mem_eq_of_nodup_key {α β : Type} (f : α → β) (l : List α)
    (hnd : (l.map f).Nodup) (a b : α) (ha : a ∈ l) (hb : b ∈ l) (hf : f a = f b) :
    a = b := by
  induction l with
  | nil => simp at ha
  | cons c rest ih =>
      have hhead := (List.nodup_cons.mp hnd).1
      have htail := (List.nodup_cons.mp hnd).2
      rcases List.mem_cons.mp ha with h1 | h1 <;> rcases List.mem_cons.mp hb with h2 | h2
      · rw [h1, h2]
      · have hmem : f c ∈ List.map f rest := by
          rw [← h1, hf]
          exact List.mem_map_of_mem f h2
        exact absurd hmem hhead
      · have hmem : f c ∈ List.map f rest := by
          rw [← h2, ← hf]
          exact List.mem_map_of_mem f h1
        exact absurd hmem hhead
      · exact ih htail h1 h2

/-- The store write-back keeps the length. -/
theorem envSetByID_length (id : Nat) (t' : TableDescriptor) :
    ∀ env : Env, (envSetByID id t' env).length = env.length := by
  intro env
  induction env with
  | nil => rfl
  | cons t ts ih =>
      unfold envSetByID
      split
      · rfl
      · simp [ih]

/-- The store write-back keeps the ID list when the new descriptor keeps the
ID. -/
theorem envSetByID_map_id (id : Nat) (t' : TableDescriptor) (ht : t'.id = id) :
    ∀ env : Env, (envSetByID id t' env).map (·.id) = env.map (·.id) := by
  intro env
  induction env with
  | nil => rfl
  | cons t ts ih =>
      unfold envSetByID
      split
      · next heq => simp [ht, heq]
      · simp [ih]

/-- Positional view of the store write-back under duplicate-free IDs: the
unique table carrying the ID is replaced, everything else is untouched. -/
theorem envSetByID_get? (id : Nat) (t' : TableDescriptor) :
    ∀ env : Env, (env.map (·.id)).Nodup →
      ∀ k, (envSetByID id t' env).get? k =
        (env.get? k).map (fun T => if T.id = id then t' else T) := by
  intro env
  induction env with
  | nil => intro _ k; simp [envSetByID]
  | cons t ts ih =>
      intro hnd k
      unfold envSetByID
      by_cases hh : t.id = id
      · rw [if_pos hh]
        cases k with
        | zero => simp [hh]
        | succ k =>
            simp only [List.get?_cons_succ]
            cases hk : ts.get? k with
            | none => simp
            | some S =>
                have hSmem : S ∈ ts := List.get?_mem hk
                have hSne : S.id ≠ id := by
                  intro hc
                  apply (List.nodup_cons.mp hnd).1
                  have hgoal : S.id ∈ List.map (fun x => x.id) ts :=
                    List.mem_map_of_mem (fun x => x.id) hSmem
                  rw [hc, ← hh] at hgoal
                  exact hgoal
                simp [hSne]
      · rw [if_neg hh]
        cases k with
        | zero => simp [hh]
        | succ k =>
            simp only [List.get?_cons_succ]
            exact ih (List.nodup_cons.mp hnd).2 k

/-! ## The finalization frame -/

theorem savedList_cons_self (u : FKTargetUpdate) (rest : List FKTargetUpdate)
    (h : u.targetSelf = true) : savedList (u :: rest) = savedList rest := by
  simp [savedList, List.filter_cons, h]

theorem savedList_cons_nonself (u : FKTargetUpdate) (rest : List FKTargetUpdate)
    (h : u.targetSelf = false) :
    savedList (u :: rest) = u.targetID :: savedList rest := by
  simp [savedList, List.filter_cons, h]

theorem selfRB_cons_self (u : FKTargetUpdate) (rest : List FKTargetUpdate)
    (did j : Nat) (h : u.targetSelf = true) :
    selfRB (u :: rest) did j =
      (if u.targetIdx = j then [backRef did u.srcIdx] else []) ++ selfRB rest did j := by
  by_cases hj : u.targetIdx = j
  · simp [selfRB, List.filter_cons, h, hj]
  · simp [selfRB, List.filter_cons, h, hj]

theorem selfRB_cons_nonself (u : FKTargetUpdate) (rest : List FKTargetUpdate)
    (did j : Nat) (h : u.targetSelf = false) :
    selfRB (u :: rest) did j = selfRB rest did j := by
  simp [selfRB, List.filter_cons, h]

theorem envRB_cons_self (u : FKTargetUpdate) (rest : List FKTargetUpdate)
    (did tid j : Nat) (h : u.targetSelf = true) :
    envRB (u :: rest) did tid j = envRB rest did tid j := by
  simp [envRB, List.filter_cons, h]

theorem envRB_cons_nonself_eq (u : FKTargetUpdate) (rest : List FKTargetUpdate)
    (did tid j : Nat) (h : u.targetSelf = false) (ht : u.targetID = tid) :
    envRB (u :: rest) did tid j =
      (if u.targetIdx = j then [backRef did u.srcIdx] else []) ++ envRB rest did tid j := by
  by_cases hj : u.targetIdx = j
  · simp [envRB, List.filter_cons, h, ht, hj]
  · simp [envRB, List.filter_cons, h, ht, hj]

theorem envRB_cons_nonself_ne (u : FKTargetUpdate) (rest : List FKTargetUpdate)
    (did tid j : Nat) (h : u.targetSelf = false) (ht : u.targetID ≠ tid) :
    envRB (u :: rest) did tid j = envRB rest did tid j := by
  simp [envRB, List.filter_cons, h, ht]

/-- The frame of a finalization run: the new table keeps its identity and
index skeleton, its self-referencing forward references get their table ID
repaired, each index's back-references grow by exactly the self-updates
aimed at it, the persisted-save list is one entry per non-self update plus
the final ADD-to-PUBLIC save, and each stored table changes only by the
back-references of the non-self updates aimed at it. -/
theorem finalizeFKs_frame :
    ∀ (us : List FKTargetUpdate) (env : Env) (desc : TableDescriptor)
      (env' : Env) (desc' : TableDescriptor) (saved : List Nat),
      (env.map (·.id)).Nodup →
      finalizeFKs env desc us = .ok (env', desc', saved) →
      desc'.id = desc.id ∧ desc'.name = desc.name ∧ desc'.columns = desc.columns ∧
      idsOf desc' = idsOf desc ∧
      env'.map (·.id) = env.map (·.id) ∧
      saved = savedList us ++ (if desc.state = .ADD then [desc.id] else []) ∧
      (∀ j, fkView desc' j = (fkView desc j).map (fun fk =>
          if us.any (fun u => u.targetSelf && u.srcIdx == j) then { fk with table := desc.id }
          else fk)) ∧
      (∀ j, rbView desc' j = rbView desc j ++ selfRB us desc.id j) ∧
      (∀ k T T', env.get? k = some T → env'.get? k = some T' →
          T'.id = T.id ∧ idsOf T' = idsOf T ∧ (∀ j, fkView T' j = fkView T j) ∧
          (∀ j, rbView T' j = rbView T j ++ envRB us desc.id T.id j)) := by
  intro us
  induction us with
  | nil =>
      intro env desc env' desc' saved hnd hrun
      unfold finalizeFKs at hrun
      have hcommon : ∀ s : TableState,
          { desc with state := s } = desc' → env = env' →
          desc'.id = desc.id ∧ desc'.name = desc.name ∧ desc'.columns = desc.columns ∧
          idsOf desc' = idsOf desc ∧
          env'.map (·.id) = env.map (·.id) ∧
          (∀ j, fkView desc' j = (fkView desc j).map (fun fk =>
              if ([] : List FKTargetUpdate).any (fun u => u.targetSelf && u.srcIdx == j) then
                { fk with table := desc.id } else fk)) ∧
          (∀ j, rbView desc' j = rbView desc j ++ selfRB [] desc.id j) ∧
          (∀ k T T', env.get? k = some T → env'.get? k = some T' →
              T'.id = T.id ∧ idsOf T' = idsOf T ∧ (∀ j, fkView T' j = fkView T j) ∧
              (∀ j, rbView T' j = rbView T j ++ envRB [] desc.id T.id j)) := by
        intro s hdesc henv
        subst hdesc; subst henv
        refine ⟨rfl, rfl, rfl, rfl, rfl, ?_, ?_, ?_⟩
        · intro j
          show fkView desc j = (fkView desc j).map (fun fk => fk)
          cases fkView desc j <;> rfl
        · intro j
          show rbView desc j = rbView desc j ++ []
          simp [selfRB]
        · intro k T T' h1 h2
          rw [h1] at h2
          have hTT : T = T' := by simpa using h2
          subst hTT
          refine ⟨rfl, rfl, fun j => rfl, fun j => ?_⟩
          simp [envRB]
      split at hrun
      · next hstate =>
          simp only [Except.ok.injEq, Prod.mk.injEq] at hrun
          obtain ⟨h1, h2, h3⟩ := hrun
          obtain ⟨c1, c2, c3, c4, c5, c6, c7, c8⟩ := hcommon .PUBLIC h2 h1
          exact ⟨c1, c2, c3, c4, c5, by rw [← h3, hstate]; simp [savedList], c6, c7, c8⟩
      · next hstate =>
          simp only [Except.ok.injEq, Prod.mk.injEq] at hrun
          obtain ⟨h1, h2, h3⟩ := hrun
          have h2' : { desc with state := desc.state } = desc' := by
            rw [← h2]
          obtain ⟨c1, c2, c3, c4, c5, c6, c7, c8⟩ := hcommon desc.state h2' h1
          refine ⟨c1, c2, c3, c4, c5, ?_, c6, c7, c8⟩
          rw [← h3, if_neg hstate]
          simp [savedList]
  | cons u rest ih =>
      intro env desc env' desc' saved hnd hrun
      unfold finalizeFKs at hrun
      split at hrun
      · -- self-referencing update
        next hself =>
        split at hrun
        · exact Except.noConfusion hrun
        · next i0 hfind =>
          have hrun' : finalizeFKs env
              (updateIndexByID
                (updateIndexByID desc u.targetIdx (fun i =>
                  { i with referencedBy := i.referencedBy ++
                      [{ table := desc.id, index := u.srcIdx, name := "" }] }))
                u.srcIdx (fun i =>
                  { i with foreignKey := i.foreignKey.map (fun fk => { fk with table := desc.id }) }))
              rest = .ok (env', desc', saved) := hrun
          obtain ⟨c1, c2, c3, c4, c5, c6, c7, c8, c9⟩ :=
            ih env _ env' desc' saved hnd hrun'
          have hd1 := updateIndexByID_fields desc u.targetIdx (fun i =>
            { i with referencedBy := i.referencedBy ++
                [{ table := desc.id, index := u.srcIdx, name := "" }] })
          have hd2 := updateIndexByID_fields
            (updateIndexByID desc u.targetIdx (fun i =>
              { i with referencedBy := i.referencedBy ++
                  [{ table := desc.id, index := u.srcIdx, name := "" }] }))
            u.srcIdx (fun i =>
              { i with foreignKey := i.foreignKey.map (fun fk => { fk with table := desc.id }) })
          have hid2 : (updateIndexByID
              (updateIndexByID desc u.targetIdx (fun i =>
                { i with referencedBy := i.referencedBy ++
                    [{ table := desc.id, index := u.srcIdx, name := "" }] }))
              u.srcIdx (fun i =>
                { i with foreignKey := i.foreignKey.map (fun fk => { fk with table := desc.id }) })).id
              = desc.id := by
            rw [hd2.1, hd1.1]
          have hst2 : (updateIndexByID
              (updateIndexByID desc u.targetIdx (fun i =>
                { i with referencedBy := i.referencedBy ++
                    [{ table := desc.id, index := u.srcIdx, name := "" }] }))
              u.srcIdx (fun i =>
                { i with foreignKey := i.foreignKey.map (fun fk => { fk with table := desc.id }) })).state
              = desc.state := by
            rw [hd2.2.2.2.1, hd1.2.2.2.1]
          have hids2 : idsOf (updateIndexByID
              (updateIndexByID desc u.targetIdx (fun i =>
                { i with referencedBy := i.referencedBy ++
                    [{ table := desc.id, index := u.srcIdx, name := "" }] }))
              u.srcIdx (fun i =>
                { i with foreignKey := i.foreignKey.map (fun fk => { fk with table := desc.id }) }))
              = idsOf desc := by
            rw [idsOf_update_fix, idsOf_update_rb]
          refine ⟨by rw [c1, hid2], by rw [c2, hd2.2.1, hd1.2.1],
            by rw [c3, hd2.2.2.1, hd1.2.2.1], by rw [c4, hids2], c5, ?_, ?_, ?_, ?_⟩
          · rw [c6, hst2, hid2, savedList_cons_self u rest hself]
          · intro j
            rw [c7 j, hid2]
            rw [fkView_fix_update, fkView_append_update]
            by_cases hj : j = u.srcIdx
            · rw [if_pos hj]
              have hany : ((u :: rest).any (fun v => v.targetSelf && v.srcIdx == j)) = true := by
                simp [List.any_cons, hself, hj]
              rw [hany]
              cases fkView desc j with
              | none => rfl
              | some fk =>
                  simp only [Option.map_some']
                  split <;> rfl
            · rw [if_neg hj]
              have hany : ((u :: rest).any (fun v => v.targetSelf && v.srcIdx == j)) =
                  (rest.any (fun v => v.targetSelf && v.srcIdx == j)) := by
                simp [List.any_cons, Ne.symm, hj]
              rw [hany]
          · intro j
            rw [c8 j, hid2]
            rw [rbView_fix_update, rbView_append_update desc u.targetIdx _ i0 hfind]
            rw [selfRB_cons_self u rest desc.id j hself]
            by_cases hj : j = u.targetIdx
            · rw [if_pos hj, if_pos (by rw [hj] : u.targetIdx = j)]
              show (rbView desc j ++ [{ table := desc.id, index := u.srcIdx, name := "" }]) ++
                  selfRB rest desc.id j =
                rbView desc j ++ ([backRef desc.id u.srcIdx] ++ selfRB rest desc.id j)
              rw [List.append_assoc]
              rfl
            · rw [if_neg hj, if_neg (fun hc => hj hc.symm)]
              rfl
          · intro k T T' h1 h2
            obtain ⟨d1, d2, d3, d4⟩ := c9 k T T' h1 h2
            exact ⟨d1, d2, d3, fun j => by
              rw [d4 j, hid2, envRB_cons_self u rest desc.id T.id j hself]⟩
      · -- update into a stored table
        next hself =>
        have hselff : u.targetSelf = false := by
          cases hcs : u.targetSelf
          · rfl
          · exact absurd hcs hself
        split at hrun
        · exact Except.noConfusion hrun
        · next tgt hget =>
        split at hrun
        · exact Except.noConfusion hrun
        · next i0 hfind =>
          obtain ⟨htgtmem, htgtid⟩ := envGetByID_mem env u.targetID tgt hget
          have htgt1id : (updateIndexByID tgt u.targetIdx (fun i =>
              { i with referencedBy := i.referencedBy ++
                  [{ table := desc.id, index := u.srcIdx, name := "" }] })).id = tgt.id :=
            (updateIndexByID_fields tgt u.targetIdx _).1
          have henv1ids : (envSetByID u.targetID
              (updateIndexByID tgt u.targetIdx (fun i =>
                { i with referencedBy := i.referencedBy ++
                    [{ table := desc.id, index := u.srcIdx, name := "" }] })) env).map (·.id) =
              env.map (·.id) :=
            envSetByID_map_id u.targetID _ (by rw [htgt1id, htgtid]) env
          have hrun' : (finalizeFKs (envSetByID u.targetID
              (updateIndexByID tgt u.targetIdx (fun i =>
                { i with referencedBy := i.referencedBy ++
                    [{ table := desc.id, index := u.srcIdx, name := "" }] })) env) desc rest).bind
              (fun r => Except.ok (r.1, r.2.1, u.targetID :: r.2.2)) =
              .ok (env', desc', saved) := hrun
          cases hrec : finalizeFKs (envSetByID u.targetID
              (updateIndexByID tgt u.targetIdx (fun i =>
                { i with referencedBy := i.referencedBy ++
                    [{ table := desc.id, index := u.srcIdx, name := "" }] })) env) desc rest with
          | error e =>
              rw [hrec] at hrun'
              exact Except.noConfusion hrun'
          | ok trip =>
              obtain ⟨e2, d2, s2⟩ := trip
              rw [hrec] at hrun'
              simp only [Except.bind, Except.ok.injEq, Prod.mk.injEq] at hrun'
              obtain ⟨he2, hd2, hs2⟩ := hrun'
              obtain ⟨c1, c2, c3, c4, c5, c6, c7, c8, c9⟩ :=
                ih _ desc e2 d2 s2 (by rw [henv1ids]; exact hnd) hrec
              subst he2; subst hd2
              refine ⟨c1, c2, c3, c4, by rw [c5, henv1ids], ?_, ?_, ?_, ?_⟩
              · rw [← hs2, c6, savedList_cons_nonself u rest hselff]
                rfl
              · intro j
                rw [c7 j]
                have hany : ((u :: rest).any (fun v => v.targetSelf && v.srcIdx == j)) =
                    (rest.any (fun v => v.targetSelf && v.srcIdx == j)) := by
                  simp [List.any_cons, hselff]
                rw [hany]
              · intro j
                rw [c8 j, selfRB_cons_nonself u rest desc.id j hselff]
              · intro k T T' h1 h2
                have henv1get := envSetByID_get? u.targetID
                  (updateIndexByID tgt u.targetIdx (fun i =>
                    { i with referencedBy := i.referencedBy ++
                        [{ table := desc.id, index := u.srcIdx, name := "" }] })) env hnd k
                rw [h1] at henv1get
                simp only [Option.map_some'] at henv1get
                by_cases hT : T.id = u.targetID
                · have hTeq : T = tgt :=
                    mem_eq_of_nodup_key (·.id) env hnd T tgt
                      (List.get?_mem h1) htgtmem
                      (by show T.id = tgt.id; rw [hT, htgtid])
                  rw [if_pos hT] at henv1get
                  obtain ⟨d1, d2, d3, d4⟩ := c9 k _ T' henv1get h2
                  refine ⟨by rw [d1, htgt1id, hTeq], ?_, ?_, ?_⟩
                  · rw [d2, idsOf_update_rb, hTeq]
                  · intro j
                    rw [d3 j, hTeq, fkView_append_update]
                  · intro j
                    rw [d4 j, htgt1id, htgtid,
                      rbView_append_update tgt u.targetIdx _ i0 hfind j,
                      envRB_cons_nonself_eq u rest desc.id T.id j hselff (by rw [hT])]
                    rw [hTeq]
                    by_cases hj : j = u.targetIdx
                    · rw [if_pos hj, if_pos (by rw [hj] : u.targetIdx = j)]
                      rw [List.append_assoc, htgtid]
                      rfl
                    · rw [if_neg hj, if_neg (fun hc => hj hc.symm)]
                      rw [htgtid]
                      rfl
                · rw [if_neg hT] at henv1get
                  obtain ⟨d1, d2, d3, d4⟩ := c9 k T T' henv1get h2
                  refine ⟨d1, d2, d3, fun j => ?_⟩
                  rw [d4 j,
                    envRB_cons_nonself_ne u rest desc.id T.id j hselff (fun hc => hT hc.symm)]

/-! ## The resolution phase -/

/-- A search that never looks at forward references transfers along
foreign-key-stripped equality. -/
theorem find?_strip_invariant {γ : Type} (p : IndexDescriptor → Bool)
    (g : IndexDescriptor → γ)
    (hp : ∀ i, p (stripFK i) = p i) (hg : ∀ i, g (stripFK i) = g i) :
    ∀ l1 l2 : List IndexDescriptor, l1.map stripFK = l2.map stripFK →
      (l1.find? p).map g = (l2.find? p).map g := by
  intro l1
  induction l1 with
  | nil =>
      intro l2 h
      cases l2 with
      | nil => rfl
      | cons b bs => simp at h
  | cons a as ih =>
      intro l2 h
      cases l2 with
      | nil => simp at h
      | cons b bs =>
          simp only [List.map_cons, List.cons.injEq] at h
          obtain ⟨hab, hrest⟩ := h
          have hpab : p a = p b := by rw [← hp a, ← hp b, hab]
          have hgab : g a = g b := by rw [← hg a, ← hg b, hab]
          simp only [List.find?_cons]
          cases hc : p b with
          | true =>
              rw [hpab, hc]
              simp [hgab]
          | false =>
              rw [hpab, hc]
              exact ih bs hrest

/-- The source-index search only reads the stripped skeleton. -/
theorem firstIndexOnCol_strip (a b : TableDescriptor) (cid : Nat)
    (h : (allIndexes a).map stripFK = (allIndexes b).map stripFK) :
    firstIndexOnCol a cid = firstIndexOnCol b cid := by
  unfold firstIndexOnCol
  exact find?_strip_invariant (fun i => i.columnIDs.head? == some cid) (·.id)
    (fun i => rfl) (fun i => rfl) (allIndexes a) (allIndexes b) h

/-- The active-column search only reads the column list. -/
theorem findActiveColumnByName_congr (a b : TableDescriptor) (n : String)
    (h : a.columns = b.columns) :
    findActiveColumnByName a n = findActiveColumnByName b n := by
  unfold findActiveColumnByName
  rw [h]

/-- `Forall₂` gives a left partner of every right member. -/
theorem forall₂_mem_right {α β : Type} {R : α → β → Prop} :
    ∀ {l1 : List α} {l2 : List β}, List.Forall₂ R l1 l2 → ∀ b ∈ l2, ∃ a ∈ l1, R a b := by
  intro l1 l2 h
  induction h with
  | nil => intro b hb; simp at hb
  | cons hab _ ih =>
      intro b hb
      rcases List.mem_cons.mp hb with h1 | h1
      · subst h1
        exact ⟨_, by simp, hab⟩
      · obtain ⟨a, hm, hr⟩ := ih b h1
        exact ⟨a, by simp [hm], hr⟩

/-- A fresh table with no forward references has an empty forward view. -/
theorem fkView_none_of_fresh (t : TableDescriptor)
    (h : ∀ i ∈ allIndexes t, i.foreignKey = none) (j : Nat) :
    fkView t j = none := by
  unfold fkView
  cases hf : findIndexByID t j with
  | none => rfl
  | some i0 =>
      have : i0.foreignKey = none := h i0 (List.mem_of_find?_eq_some hf)
      simp [this]

/-- The multi-declaration resolution loop: the skeleton survives, every
update gets a distinct source index paired to its declaration's column, the
forward views are exactly the attached references (non-empty names, target
table and index recorded in the update), and untouched views are
unchanged. -/
theorem resolveFKs_spec :
    ∀ (decls : List FKDecl) (env : Env) (tbl : TableDescriptor)
      (desc1 : TableDescriptor) (us : List FKTargetUpdate),
      (idsOf tbl).Nodup →
      (tbl.columns.map (·.name)).Nodup →
      (tbl.columns.map (·.id)).Nodup →
      (decls.map (·.fromCol)).Nodup →
      resolveFKs env tbl decls = .ok (desc1, us) →
      (allIndexes desc1).map stripFK = (allIndexes tbl).map stripFK ∧
      desc1.columns = tbl.columns ∧ desc1.id = tbl.id ∧ desc1.name = tbl.name ∧
      desc1.state = (if decls.isEmpty then tbl.state else .ADD) ∧
      (us.map (·.srcIdx)).Nodup ∧
      List.Forall₂ (fun (d : FKDecl) (u : FKTargetUpdate) =>
        ∃ c, findActiveColumnByName tbl d.fromCol = some c ∧
          firstIndexOnCol tbl c.id = some u.srcIdx) decls us ∧
      (∀ u ∈ us, (u.targetSelf = true → u.targetID = tbl.id) ∧
        (u.targetSelf = false → ∃ tgt ∈ env, tgt.id = u.targetID)) ∧
      (∀ j, match us.find? (fun u => u.srcIdx == j) with
        | some u => ∃ nm, nm ≠ "" ∧
            fkView desc1 j = some { table := u.targetID, index := u.targetIdx, name := nm }
        | none => fkView desc1 j = fkView tbl j) := by
  intro decls
  induction decls with
  | nil =>
      intro env tbl desc1 us hnd hcn hci hdn hrun
      unfold resolveFKs at hrun
      simp only [Except.ok.injEq, Prod.mk.injEq] at hrun
      obtain ⟨h1, h2⟩ := hrun
      subst h1; subst h2
      refine ⟨rfl, rfl, rfl, rfl, by simp, by simp, List.Forall₂.nil, by simp, ?_⟩
      intro j
      exact rfl
  | cons d ds ih =>
      intro env tbl desc1 us hnd hcn hci hdn hrun
      unfold resolveFKs at hrun
      cases hstep : resolveColFK env tbl d with
      | error e =>
          rw [hstep] at hrun
          exact Except.noConfusion hrun
      | ok p =>
          obtain ⟨tbl1, u⟩ := p
          rw [hstep] at hrun
          cases hrest : resolveFKs env tbl1 ds with
          | error e =>
              simp only [hrest, bind, Except.bind] at hrun
              exact Except.noConfusion hrun
          | ok q =>
              obtain ⟨desc2, us'⟩ := q
              simp only [hrest, bind, Except.bind, pure, Except.pure, Except.ok.injEq,
                Prod.mk.injEq] at hrun
              obtain ⟨hd2, hus⟩ := hrun
              subst hd2
              obtain ⟨src, target, targetColName, targetCol, nm, tblA,
                g1, g2, g3, g4, g5, g6, g7, g8, g9, g10⟩ :=
                resolveColFK_ok_spec env tbl d tbl1 u hstep
              obtain ⟨a1, a2, a3, a4, a5, a6, a7, a8⟩ :=
                attachFKToSource_some_spec tbl src.id _ tblA u.srcIdx g9
              have hstrip1 : (allIndexes tbl1).map stripFK = (allIndexes tbl).map stripFK := by
                rw [g10]
                exact a2
              have hcols1 : tbl1.columns = tbl.columns := by rw [g10]; exact a3
              have hid1 : tbl1.id = tbl.id := by rw [g10]; exact a4
              have hname1 : tbl1.name = tbl.name := by rw [g10]; exact a5
              have hstate1 : tbl1.state = .ADD := by rw [g10]
              have hids1 : idsOf tbl1 = idsOf tbl := by
                unfold idsOf
                have : ∀ l1 l2 : List IndexDescriptor, l1.map stripFK = l2.map stripFK →
                    l1.map (·.id) = l2.map (·.id) := by
                  intro l1 l2 h
                  have h1 : (l1.map stripFK).map (·.id) = (l2.map stripFK).map (·.id) := by
                    rw [h]
                  simpa [List.map_map, Function.comp] using h1
                exact this _ _ hstrip1
              obtain ⟨b1, b2, b3, b4, b5, b6, b7, b8, b9⟩ :=
                ih env tbl1 desc2 us' (by rw [hids1]; exact hnd)
                  (by rw [hcols1]; exact hcn) (by rw [hcols1]; exact hci)
                  (List.nodup_cons.mp hdn).2 hrest
              have hP1 : ∀ (d' : FKDecl) (u' : FKTargetUpdate),
                  (∃ c, findActiveColumnByName tbl1 d'.fromCol = some c ∧
                  firstIndexOnCol tbl1 c.id = some (FKTargetUpdate.srcIdx u')) →
                  (∃ c, findActiveColumnByName tbl d'.fromCol = some c ∧
                    firstIndexOnCol tbl c.id = some (FKTargetUpdate.srcIdx u')) := by
                intro d' u' ⟨c, hc1, hc2⟩
                refine ⟨c, ?_, ?_⟩
                · rw [← findActiveColumnByName_congr tbl1 tbl d'.fromCol hcols1]
                  exact hc1
                · rw [← firstIndexOnCol_strip tbl1 tbl c.id hstrip1]
                  exact hc2
              have b7' : List.Forall₂ (fun (d' : FKDecl) (u' : FKTargetUpdate) =>
                  ∃ c, findActiveColumnByName tbl d'.fromCol = some c ∧
                    firstIndexOnCol tbl c.id = some u'.srcIdx) ds us' :=
                List.Forall₂.imp (fun d' u' h => hP1 d' u' h) b7
              have hPu : ∃ c, findActiveColumnByName tbl d.fromCol = some c ∧
                  firstIndexOnCol tbl c.id = some u.srcIdx := ⟨src, g1, a1⟩
              have hnotin : u.srcIdx ∉ us'.map (·.srcIdx) := by
                intro hmem
                obtain ⟨u', hu'mem, hu'eq⟩ := List.mem_map.mp hmem
                obtain ⟨d', hd'mem, c', hc'1, hc'2⟩ := forall₂_mem_right b7' u' hu'mem
                obtain ⟨c, hc1, hc2⟩ := hPu
                rw [hu'eq] at hc'2
                obtain ⟨i1, hi1m, hi1id, hi1h⟩ := firstIndexOnCol_some tbl c.id u.srcIdx hc2
                obtain ⟨i2, hi2m, hi2id, hi2h⟩ := firstIndexOnCol_some tbl c'.id u.srcIdx hc'2
                have hi12 : i1 = i2 :=
                  mem_eq_of_nodup_key (·.id) (allIndexes tbl)
                    (by simpa [idsOf] using hnd) i1 i2 hi1m hi2m
                    (by show i1.id = i2.id; rw [hi1id, hi2id])
                have hcid : c.id = c'.id := by
                  rw [hi12] at hi1h
                  rw [hi1h] at hi2h
                  simpa using hi2h
                have hcc : c = c' :=
                  mem_eq_of_nodup_key (·.id) tbl.columns hci c c'
                    (List.mem_of_find?_eq_some hc1) (List.mem_of_find?_eq_some hc'1)
                    hcid
                have hn1 : c.name = d.fromCol := by
                  have := List.find?_some hc1
                  simpa using this
                have hn2 : c'.name = d'.fromCol := by
                  have := List.find?_some hc'1
                  simpa using this
                have : d.fromCol ∈ ds.map (·.fromCol) := by
                  rw [← hn1, hcc, hn2]
                  exact List.mem_map_of_mem (·.fromCol) hd'mem
                exact (List.nodup_cons.mp hdn).1 this
              have hself_tid : u.targetSelf = true → u.targetID = tbl.id := by
                intro hs
                obtain ⟨_, hr⟩ := resolveTargetTable_ok env tbl d.targetTable target
                  u.targetSelf g2
                rw [g7, (hr hs).1]
              have hnonself_tid : u.targetSelf = false → ∃ tgt ∈ env, tgt.id = u.targetID := by
                intro hs
                obtain ⟨hl, _⟩ := resolveTargetTable_ok env tbl d.targetTable target
                  u.targetSelf g2
                exact ⟨target, hl hs, g7.symm⟩
              have hfkstep : ∀ j, fkView tbl1 j =
                  if j = u.srcIdx then
                    some { table := target.id, index := u.targetIdx, name := nm }
                  else fkView tbl j := by
                intro j
                rw [g10, fkView_state]
                unfold fkView
                rw [a8 hnd j]
                by_cases hj : j = u.srcIdx
                · rw [if_pos hj, if_pos hj]
                  obtain ⟨i1, hi1m, hi1id, _⟩ :=
                    firstIndexOnCol_some tbl src.id u.srcIdx a1
                  have : findIndexByID tbl u.srcIdx = some i1 := by
                    rw [← hi1id]
                    exact findIndexByID_of_mem tbl i1 hi1m hnd
                  rw [this]
                  rfl
                · rw [if_neg hj, if_neg hj]
              rw [← hus]
              refine ⟨by rw [b1, hstrip1], by rw [b2, hcols1], by rw [b3, hid1],
                by rw [b4, hname1], by simp [b5, hstate1], ?_, ?_, ?_, ?_⟩
              · simp only [List.map_cons]
                exact List.nodup_cons.mpr ⟨hnotin, b6⟩
              · exact List.Forall₂.cons hPu b7'
              · intro v hv
                rcases List.mem_cons.mp hv with h1 | h1
                · subst h1
                  exact ⟨hself_tid, hnonself_tid⟩
                · obtain ⟨hb1, hb2⟩ := b8 v h1
                  exact ⟨fun hs => by rw [hb1 hs, hid1], hb2⟩
              · intro j
                simp only [List.find?_cons]
                by_cases hj : u.srcIdx = j
                · have : (u.srcIdx == j) = true := by simp [hj]
                  rw [this]
                  have hfind' : us'.find? (fun v => v.srcIdx == j) = none := by
                    cases hcase : us'.find? (fun v => v.srcIdx == j) with
                    | none => rfl
                    | some v =>
                        have hvj : v.srcIdx = j := by
                          have := List.find?_some hcase
                          simpa using this
                        exact absurd
                          (by rw [hj, ← hvj]
                              exact List.mem_map_of_mem (·.srcIdx)
                                (List.mem_of_find?_eq_some hcase)) hnotin
                  have hb9 := b9 j
                  rw [hfind'] at hb9
                  rw [hb9, hfkstep j, if_pos hj.symm, ← g7]
                  exact ⟨nm, g8, rfl⟩
                · have : (u.srcIdx == j) = false := by simp [hj]
                  rw [this]
                  have hb9 := b9 j
                  cases hcase : us'.find? (fun v => v.srcIdx == j) with
                  | some v =>
                      rw [hcase] at hb9
                      exact hb9
                  | none =>
                      rw [hcase] at hb9
                      rw [hb9, hfkstep j, if_neg (fun hc => hj hc.symm)]

/-- Equal stripped skeletons have equal index-ID lists. -/
theorem idsOf_of_strip (a b : TableDescriptor)
    (h : (allIndexes a).map stripFK = (allIndexes b).map stripFK) :
    idsOf a = idsOf b := by
  unfold idsOf
  have h1 : ((allIndexes a).map stripFK).map (fun i => i.id) =
      ((allIndexes b).map stripFK).map (fun i => i.id) := by rw [h]
  simpa [List.map_map, Function.comp] using h1

/-- The back-reference view only reads the stripped skeleton. -/
theorem rbView_strip (a b : TableDescriptor)
    (h : (allIndexes a).map stripFK = (allIndexes b).map stripFK) (j : Nat) :
    rbView a j = rbView b j := by
  unfold rbView findIndexByID
  rw [find?_strip_invariant (fun i => i.id == j) (fun i => i.referencedBy)
    (fun i => rfl) (fun i => rfl) (allIndexes a) (allIndexes b) h]

/-- A fresh table with no back-references has an empty back-reference
view. -/
theorem rbView_nil_of_fresh (t : TableDescriptor)
    (h : ∀ i ∈ allIndexes t, i.referencedBy = []) (j : Nat) :
    rbView t j = [] := by
  unfold rbView
  cases hf : findIndexByID t j with
  | none => rfl
  | some i0 =>
      have h0 : i0.referencedBy = [] := h i0 (List.mem_of_find?_eq_some hf)
      simp [h0]

/-- Every self-appended back-reference entry has an empty name. -/
theorem selfRB_names (us : List FKTargetUpdate) (did j : Nat) :
    ∀ e ∈ selfRB us did j, e.name = "" := by
  intro e he
  unfold selfRB at he
  obtain ⟨u, _, hb⟩ := List.mem_map.mp he
  rw [← hb]
  rfl

/-- Every store-appended back-reference entry has an empty name. -/
theorem envRB_names (us : List FKTargetUpdate) (did tid j : Nat) :
    ∀ e ∈ envRB us did tid j, e.name = "" := by
  intro e he
  unfold envRB at he
  obtain ⟨u, _, hb⟩ := List.mem_map.mp he
  rw [← hb]
  rfl

/-- Counting matching entries among the self-appended back-references of
index `j` amounts to counting the matching self-updates. -/
theorem countP_selfRB (did j iid : Nat) (us : List FKTargetUpdate) :
    (selfRB us did j).countP (fun e => e.table == did && e.index == iid) =
      us.countP (fun u => u.targetSelf && (u.targetIdx == j) && (u.srcIdx == iid)) := by
  induction us with
  | nil => rfl
  | cons u rest ih =>
      cases h1 : (u.targetSelf && (u.targetIdx == j)) with
      | true =>
          have hsf : selfRB (u :: rest) did j = backRef did u.srcIdx :: selfRB rest did j := by
            simp [selfRB, List.filter_cons, h1]
          rw [hsf, List.countP_cons, ih, List.countP_cons]
          congr 1
          simp [backRef, h1]
      | false =>
          have hsf : selfRB (u :: rest) did j = selfRB rest did j := by
            simp [selfRB, List.filter_cons, h1]
          rw [hsf, ih, List.countP_cons]
          have hq : (u.targetSelf && (u.targetIdx == j) && (u.srcIdx == iid)) = false := by
            rw [h1, Bool.false_and]
          rw [hq]
          simp

/-- Counting matching entries among the store-appended back-references of
index `j` of table `tid` amounts to counting the matching non-self
updates. -/
theorem countP_envRB (did tid j iid : Nat) (us : List FKTargetUpdate) :
    (envRB us did tid j).countP (fun e => e.table == did && e.index == iid) =
      us.countP (fun u =>
        !u.targetSelf && (u.targetID == tid) && (u.targetIdx == j) && (u.srcIdx == iid)) := by
  induction us with
  | nil => rfl
  | cons u rest ih =>
      cases h1 : (!u.targetSelf && (u.targetID == tid) && (u.targetIdx == j)) with
      | true =>
          have hsf : envRB (u :: rest) did tid j =
              backRef did u.srcIdx :: envRB rest did tid j := by
            simp [envRB, List.filter_cons, h1]
          rw [hsf, List.countP_cons, ih, List.countP_cons]
          congr 1
          simp [backRef, h1]
      | false =>
          have hsf : envRB (u :: rest) did tid j = envRB rest did tid j := by
            simp [envRB, List.filter_cons, h1]
          rw [hsf, ih, List.countP_cons]
          have hq : (!u.targetSelf && (u.targetID == tid) && (u.targetIdx == j) &&
              (u.srcIdx == iid)) = false := by
            rw [h1, Bool.false_and]
          rw [hq]
          simp

/-- A predicate holding at a member and forcing that member's key counts
exactly one match when the keys are duplicate-free. -/
theorem countP_eq_one_unique {α β : Type} (f : α → β) :
    ∀ (l : List α) (p : α → Bool) (a : α),
      (l.map f).Nodup → a ∈ l → p a = true →
      (∀ b ∈ l, p b = true → f b = f a) → l.countP p = 1 := by
  intro l
  induction l with
  | nil =>
      intro p a _ ha _ _
      simp at ha
  | cons c rest ih =>
      intro p a hnd ha hp hu
      have hnd' : (f c :: rest.map f).Nodup := by simpa using hnd
      have hhead := (List.nodup_cons.mp hnd').1
      have htail := (List.nodup_cons.mp hnd').2
      rcases List.mem_cons.mp ha with h1 | h1
      · subst h1
        have hz : rest.countP p = 0 := by
          rw [List.countP_eq_zero]
          intro b hb hpb
          have hm : f a ∈ rest.map f := by
            rw [← hu b (List.mem_cons_of_mem _ hb) hpb]
            exact List.mem_map_of_mem f hb
          exact hhead hm
        rw [List.countP_cons, hz]
        simp [hp]
      · have hpc : p c = false := by
          cases hc : p c with
          | false => rfl
          | true =>
              have hm : f c ∈ rest.map f := by
                rw [hu c (List.mem_cons_self c rest) hc]
                exact List.mem_map_of_mem f h1
              exact absurd hm hhead
        have hrec := ih p a htail h1 hp
          (fun b hb hpb => hu b (List.mem_cons_of_mem _ hb) hpb)
        rw [List.countP_cons, hpc]
        simpa using hrec

/-- Under distinct source indexes, the self-flag of the update found at a
source index determines whether any self-update sits there. -/
theorem any_self_eq_of_find? (us : List FKTargetUpdate) (j : Nat) (u : FKTargetUpdate)
    (hnd : (us.map (fun v => v.srcIdx)).Nodup)
    (hf : us.find? (fun v => v.srcIdx == j) = some u) :
    us.any (fun v => v.targetSelf && v.srcIdx == j) = u.targetSelf := by
  have hmem : u ∈ us := List.mem_of_find?_eq_some hf
  have hj : u.srcIdx = j := by
    have := List.find?_some hf
    simpa using this
  cases hself : u.targetSelf with
  | true =>
      apply List.any_eq_true.mpr
      exact ⟨u, hmem, by simp [hself, hj]⟩
  | false =>
      apply Bool.eq_false_iff.mpr
      intro hany
      obtain ⟨v, hv, hvp⟩ := List.any_eq_true.mp hany
      have hvs : v.targetSelf = true ∧ v.srcIdx = j := by simpa using hvp
      have hvu : v = u :=
        mem_eq_of_nodup_key (fun x => x.srcIdx) us hnd v u hv hmem
          (by show v.srcIdx = u.srcIdx; rw [hvs.2, hj])
      rw [hvu] at hvs
      rw [hself] at hvs
      exact Bool.noConfusion hvs.1

/-- End-to-end characterization of the FK portion of CREATE TABLE on a
fresh descriptor: the run produces one update per declaration, the new
table's forward references are exactly the per-source-index attachments
(with the self-referencing ones repaired to the new ID), its
back-references are exactly the self-appended entries, each stored table
grows exactly the store-appended entries for it, and the persisted IDs are
one per non-self update plus the final save of the new table. -/
theorem runCreateTableFKs_core
    (env : Env) (desc0 : TableDescriptor) (decls : List FKDecl) (newID : Nat)
    (env' : Env) (desc' : TableDescriptor) (saved : List Nat)
    (henvnd : (env.map (fun t => t.id)).Nodup)
    (hnd : (idsOf desc0).Nodup)
    (hcn : (desc0.columns.map (fun c => c.name)).Nodup)
    (hci : (desc0.columns.map (fun c => c.id)).Nodup)
    (hdn : (decls.map (fun d => d.fromCol)).Nodup)
    (hfk0 : ∀ i ∈ allIndexes desc0, i.foreignKey = none)
    (hrb0 : ∀ i ∈ allIndexes desc0, i.referencedBy = [])
    (hrun : runCreateTableFKs env desc0 decls newID = .ok (env', desc', saved)) :
    ∃ us : List FKTargetUpdate,
      desc'.id = newID ∧
      idsOf desc' = idsOf desc0 ∧
      env'.map (fun t => t.id) = env.map (fun t => t.id) ∧
      us.length = decls.length ∧
      saved = savedList us ++
        (if (if decls.isEmpty then desc0.state else .ADD) = TableState.ADD
          then [newID] else []) ∧
      (us.map (fun v => v.srcIdx)).Nodup ∧
      (∀ u ∈ us, u.targetSelf = false → ∃ tgt ∈ env, tgt.id = u.targetID) ∧
      (∀ j, match us.find? (fun v => v.srcIdx == j) with
        | some u => ∃ nm, nm ≠ "" ∧ fkView desc' j =
            some { table := if u.targetSelf then newID else u.targetID,
                   index := u.targetIdx, name := nm }
        | none => fkView desc' j = none) ∧
      (∀ j, rbView desc' j = selfRB us newID j) ∧
      (∀ T ∈ env', ∃ T0 ∈ env, T.id = T0.id ∧ idsOf T = idsOf T0 ∧
        (∀ j, rbView T j = rbView T0 j ++ envRB us newID T0.id j)) := by
  unfold runCreateTableFKs at hrun
  cases hres : resolveFKs env desc0 decls with
  | error e =>
      rw [hres] at hrun
      simp only [bind, Except.bind] at hrun
      exact Except.noConfusion hrun
  | ok p =>
      obtain ⟨desc1, us⟩ := p
      rw [hres] at hrun
      simp only [bind, Except.bind] at hrun
      obtain ⟨b1, b2, b3, b4, b5, b6, b7, b8, b9⟩ :=
        resolveFKs_spec decls env desc0 desc1 us hnd hcn hci hdn hres
      generalize hdesc2 : ({ desc1 with id := newID } : TableDescriptor) = desc2 at hrun
      have hd2id : desc2.id = newID := by rw [← hdesc2]
      have hd2idx : allIndexes desc2 = allIndexes desc1 := by
        rw [← hdesc2]
        rfl
      have hd2state : desc2.state = desc1.state := by rw [← hdesc2]
      have hfv2 : ∀ j, fkView desc2 j = fkView desc1 j := by
        intro j
        unfold fkView findIndexByID
        rw [hd2idx]
      have hrb2 : ∀ j, rbView desc2 j = rbView desc1 j := by
        intro j
        unfold rbView findIndexByID
        rw [hd2idx]
      have hids2 : idsOf desc2 = idsOf desc1 := by
        unfold idsOf
        rw [hd2idx]
      obtain ⟨f1, f2, f3, f4, f5, f6, f7, f8, f9⟩ :=
        finalizeFKs_frame us env desc2 env' desc' saved henvnd hrun
      have hids1 : idsOf desc1 = idsOf desc0 := idsOf_of_strip desc1 desc0 b1
      have hrb1 : ∀ j, rbView desc1 j = [] := by
        intro j
        rw [rbView_strip desc1 desc0 b1 j]
        exact rbView_nil_of_fresh desc0 hrb0 j
      refine ⟨us, ?_, ?_, f5, ?_, ?_, b6, fun u hu => (b8 u hu).2, ?_, ?_, ?_⟩
      · rw [f1, hd2id]
      · rw [f4, hids2, hids1]
      · exact (List.Forall₂.length_eq b7).symm
      · rw [hd2state, b5, hd2id] at f6
        exact f6
      · intro j
        have h7 := f7 j
        have h9 := b9 j
        rw [hfv2 j, hd2id] at h7
        cases hf : us.find? (fun v => v.srcIdx == j) with
        | none =>
            rw [hf] at h9
            show fkView desc' j = none
            rw [h7, h9, fkView_none_of_fresh desc0 hfk0 j]
            rfl
        | some u =>
            rw [hf] at h9
            obtain ⟨nm, hnm, hview⟩ := h9
            show ∃ nm, nm ≠ "" ∧ fkView desc' j =
              some { table := if u.targetSelf then newID else u.targetID,
                     index := u.targetIdx, name := nm }
            refine ⟨nm, hnm, ?_⟩
            have hany : (us.any (fun v => v.targetSelf && v.srcIdx == j)) = u.targetSelf :=
              any_self_eq_of_find? us j u b6 hf
            rw [h7, hview]
            simp only [Option.map_some']
            rw [hany]
            cases u.targetSelf <;> rfl
      · intro j
        have h8 := f8 j
        rw [hrb2 j, hrb1 j, hd2id] at h8
        simpa using h8
      · intro T hT
        obtain ⟨k, hTk⟩ := List.get?_of_mem hT
        have hlenv : env'.length = env.length := by
          have hc := congrArg List.length f5
          simpa using hc
        have hk : k < env.length := by
          have h1 : k < env'.length := (List.get?_eq_some.mp hTk).1
          omega
        cases h0 : env.get? k with
        | none =>
            have := List.get?_eq_none.mp h0
            omega
        | some T0 =>
            obtain ⟨e1, e2, _, e4⟩ := f9 k T0 T h0 hTk
            refine ⟨T0, List.get?_mem h0, e1, e2, ?_⟩
            intro j
            have he := e4 j
            rw [hd2id] at he
            exact he

/-- C1: For every CREATE TABLE whose `Start` successfully resolves and
finalizes its column-level foreign-key declarations, the forward and back
references are bidirectionally consistent: an index of the new table
carries a forward reference whose table equals `T`'s ID and whose index
equals `J`'s ID — for `T` the new table itself or any stored table — if
and only if `J`'s back-reference list contains exactly one entry naming
the new table's ID and that source index's ID; self-referencing foreign
keys included. -/
theorem runCreateTableFKs_bidirectional
    (env : Env) (desc0 : TableDescriptor) (decls : List FKDecl) (newID : Nat)
    (env' : Env) (desc' : TableDescriptor) (saved : List Nat)
    (henvnd : (env.map (fun t => t.id)).Nodup)
    (henvidx : ∀ T ∈ env, (idsOf T).Nodup)
    (hnd : (idsOf desc0).Nodup)
    (hcn : (desc0.columns.map (fun c => c.name)).Nodup)
    (hci : (desc0.columns.map (fun c => c.id)).Nodup)
    (hdn : (decls.map (fun d => d.fromCol)).Nodup)
    (hfk0 : ∀ i ∈ allIndexes desc0, i.foreignKey = none)
    (hrb0 : ∀ i ∈ allIndexes desc0, i.referencedBy = [])
    (hnew_env : newID ∉ env.map (fun t => t.id))
    (hnew_rb : ∀ T ∈ env, ∀ J ∈ allIndexes T, ∀ e ∈ J.referencedBy, e.table ≠ newID)
    (hrun : runCreateTableFKs env desc0 decls newID = .ok (env', desc', saved)) :
    fkConsistent desc' (desc' :: env') := by
  obtain ⟨us, hdid, hids, henvids, hlen, hsaved, husnd, hself2env, hFK, hRB, hENV⟩ :=
    runCreateTableFKs_core env desc0 decls newID env' desc' saved henvnd hnd hcn hci hdn
      hfk0 hrb0 hrun
  have hndd' : (idsOf desc').Nodup := by
    rw [hids]
    exact hnd
  unfold fkConsistent
  intro i hi T hT J hJ
  have hfkvi : fkView desc' i.id = i.foreignKey := by
    unfold fkView
    rw [findIndexByID_of_mem desc' i hi hndd']
    rfl
  rcases List.mem_cons.mp hT with hTd | hTe
  · -- the new table itself: self-referencing links
    rw [hTd] at hJ
    rw [hTd]
    have hJrb : J.referencedBy = rbView desc' J.id := by
      unfold rbView
      rw [findIndexByID_of_mem desc' J hJ hndd']
      rfl
    rw [hJrb, hRB J.id, hdid, countP_selfRB newID J.id i.id us]
    constructor
    · rintro ⟨fk, hfk, htab, hidx⟩
      have hv : fkView desc' i.id = some fk := by
        rw [hfkvi]
        exact hfk
      have h := hFK i.id
      cases hf : us.find? (fun v => v.srcIdx == i.id) with
      | none =>
          have h' : fkView desc' i.id = none := by
            rw [hf] at h
            exact h
          rw [hv] at h'
          exact Option.noConfusion h'
      | some u =>
          have h' : ∃ nm, nm ≠ "" ∧ fkView desc' i.id =
              some { table := if u.targetSelf then newID else u.targetID,
                     index := u.targetIdx, name := nm } := by
            rw [hf] at h
            exact h
          obtain ⟨nm, hnm, hview⟩ := h'
          rw [hv, Option.some.injEq] at hview
          subst hview
          have hmem : u ∈ us := List.mem_of_find?_eq_some hf
          have hsrc : u.srcIdx = i.id := by
            have := List.find?_some hf
            simpa using this
          have htab' : (if u.targetSelf then newID else u.targetID) = newID := htab
          have hidx' : u.targetIdx = J.id := hidx
          have hselfT : u.targetSelf = true := by
            cases hs : u.targetSelf with
            | true => rfl
            | false =>
                rw [hs] at htab'
                simp at htab'
                obtain ⟨tgt, htgtmem, htgtid⟩ := hself2env u hmem hs
                have hin : u.targetID ∈ env.map (fun t => t.id) := by
                  rw [← htgtid]
                  exact List.mem_map_of_mem _ htgtmem
                rw [htab'] at hin
                exact absurd hin hnew_env
          apply countP_eq_one_unique (fun v => v.srcIdx) us _ u husnd hmem
          · simp [hselfT, hidx', hsrc]
          · intro v hv hqv
            simp only [Bool.and_eq_true] at hqv
            have hvi := hqv.2
            show v.srcIdx = u.srcIdx
            rw [hsrc]
            simpa using hvi
    · intro hcnt
      have hpos : 0 < us.countP
          (fun u => u.targetSelf && (u.targetIdx == J.id) && (u.srcIdx == i.id)) := by
        omega
      obtain ⟨u, hmem, hq⟩ := List.countP_pos.mp hpos
      have hqs : u.targetSelf = true ∧ u.targetIdx = J.id ∧ u.srcIdx = i.id := by
        simp only [Bool.and_eq_true, beq_iff_eq] at hq
        exact ⟨hq.1.1, hq.1.2, hq.2⟩
      obtain ⟨hselfT, htidx, hsrc⟩ := hqs
      have hf : us.find? (fun v => v.srcIdx == i.id) = some u := by
        rw [← hsrc]
        exact find_key_of_mem (fun v => v.srcIdx) us u hmem husnd
      have h := hFK i.id
      have h' : ∃ nm, nm ≠ "" ∧ fkView desc' i.id =
          some { table := if u.targetSelf then newID else u.targetID,
                 index := u.targetIdx, name := nm } := by
        rw [hf] at h
        exact h
      obtain ⟨nm, hnm, hview⟩ := h'
      refine ⟨{ table := if u.targetSelf then newID else u.targetID,
                index := u.targetIdx, name := nm }, ?_, ?_, ?_⟩
      · rw [← hfkvi]
        exact hview
      · show (if u.targetSelf then newID else u.targetID) = newID
        rw [hselfT]
        simp
      · exact htidx
  · -- a stored table
    obtain ⟨T0, hT0, hTid, hTids, hTrb⟩ := hENV T hTe
    have hndT : (idsOf T).Nodup := by
      rw [hTids]
      exact henvidx T0 hT0
    have hJrb : J.referencedBy = rbView T J.id := by
      unfold rbView
      rw [findIndexByID_of_mem T J hJ hndT]
      rfl
    have hold : (rbView T0 J.id).countP
        (fun e => e.table == newID && e.index == i.id) = 0 := by
      rw [List.countP_eq_zero]
      intro e he hpe
      have he0 : ∃ J0 ∈ allIndexes T0, e ∈ J0.referencedBy := by
        unfold rbView at he
        cases hfnd : findIndexByID T0 J.id with
        | none =>
            rw [hfnd] at he
            simp at he
        | some J0 =>
            rw [hfnd] at he
            simp at he
            exact ⟨J0, List.mem_of_find?_eq_some hfnd, he⟩
      obtain ⟨J0, hJ0, heJ0⟩ := he0
      have hne := hnew_rb T0 hT0 J0 hJ0 e heJ0
      simp only [Bool.and_eq_true, beq_iff_eq] at hpe
      exact hne hpe.1
    rw [hJrb, hTrb J.id, hdid, List.countP_append, hold,
      countP_envRB newID T0.id J.id i.id us, Nat.zero_add]
    constructor
    · rintro ⟨fk, hfk, htab, hidx⟩
      have hv : fkView desc' i.id = some fk := by
        rw [hfkvi]
        exact hfk
      have h := hFK i.id
      cases hf : us.find? (fun v => v.srcIdx == i.id) with
      | none =>
          have h' : fkView desc' i.id = none := by
            rw [hf] at h
            exact h
          rw [hv] at h'
          exact Option.noConfusion h'
      | some u =>
          have h' : ∃ nm, nm ≠ "" ∧ fkView desc' i.id =
              some { table := if u.targetSelf then newID else u.targetID,
                     index := u.targetIdx, name := nm } := by
            rw [hf] at h
            exact h
          obtain ⟨nm, hnm, hview⟩ := h'
          rw [hv, Option.some.injEq] at hview
          subst hview
          have hmem : u ∈ us := List.mem_of_find?_eq_some hf
          have hsrc : u.srcIdx = i.id := by
            have := List.find?_some hf
            simpa using this
          have htab' : (if u.targetSelf then newID else u.targetID) = T.id := htab
          have hidx' : u.targetIdx = J.id := hidx
          have hselfF : u.targetSelf = false := by
            cases hs : u.targetSelf with
            | false => rfl
            | true =>
                rw [hs] at htab'
                simp at htab'
                have hinT : T.id ∈ env.map (fun t => t.id) := by
                  rw [hTid]
                  exact List.mem_map_of_mem _ hT0
                rw [← htab'] at hinT
                exact absurd hinT hnew_env
          have htgt : u.targetID = T.id := by
            rw [hselfF] at htab'
            simpa using htab'
          have htid0 : u.targetID = T0.id := by
            rw [htgt, hTid]
          apply countP_eq_one_unique (fun v => v.srcIdx) us _ u husnd hmem
          · simp [hselfF, htid0, hidx', hsrc]
          · intro v hv hqv
            simp only [Bool.and_eq_true] at hqv
            have hvi := hqv.2
            show v.srcIdx = u.srcIdx
            rw [hsrc]
            simpa using hvi
    · intro hcnt
      have hpos : 0 < us.countP (fun u =>
          !u.targetSelf && (u.targetID == T0.id) && (u.targetIdx == J.id) &&
            (u.srcIdx == i.id)) := by
        omega
      obtain ⟨u, hmem, hq⟩ := List.countP_pos.mp hpos
      have hqs : u.targetSelf = false ∧ u.targetID = T0.id ∧ u.targetIdx = J.id ∧
          u.srcIdx = i.id := by
        simp only [Bool.and_eq_true, beq_iff_eq, Bool.not_eq_true'] at hq
        exact ⟨hq.1.1.1, hq.1.1.2, hq.1.2, hq.2⟩
      obtain ⟨hselfF, htid0, htidx, hsrc⟩ := hqs
      have hf : us.find? (fun v => v.srcIdx == i.id) = some u := by
        rw [← hsrc]
        exact find_key_of_mem (fun v => v.srcIdx) us u hmem husnd
      have h := hFK i.id
      have h' : ∃ nm, nm ≠ "" ∧ fkView desc' i.id =
          some { table := if u.targetSelf then newID else u.targetID,
                 index := u.targetIdx, name := nm } := by
        rw [hf] at h
        exact h
      obtain ⟨nm, hnm, hview⟩ := h'
      refine ⟨{ table := if u.targetSelf then newID else u.targetID,
                index := u.targetIdx, name := nm }, ?_, ?_, ?_⟩
      · rw [← hfkvi]
        exact hview
      · have he : u.targetID = T.id := by
          rw [htid0, ← hTid]
        show (if u.targetSelf then newID else u.targetID) = T.id
        rw [hselfF]
        simpa using he
      · exact htidx

theorem runCreateTableFKs_bidirectional_witness :
    (([wAbc].map (fun t => t.id)).Nodup ∧
      runCreateTableFKs [wAbc] wXyz wSelfDecls 9 = .ok wOut) ∧
    fkConsistent wOut.2.1 (wOut.2.1 :: wOut.1) := by
  refine ⟨⟨by decide, rfl⟩, ?_⟩
  exact runCreateTableFKs_bidirectional [wAbc] wXyz wSelfDecls 9 wOut.1 wOut.2.1 wOut.2.2
    (by decide) (by decide) (by decide) (by decide) (by decide) (by decide) (by decide)
    (by decide) (by decide) (by decide) rfl

/-- C5 counterexample: two foreign keys into the same stored target table
make a successful CREATE TABLE run persist that target's descriptor twice —
the save list carries the target's ID once per foreign key, not once per
distinct target table. -/
theorem finalizeFKs_no_target_dedup :
    wDecls.map (fun d => d.targetTable) = ["abc", "abc"] ∧
    savedOf (runCreateTableFKs [wAbc] wXyz wDecls 9) = some [2, 2, 9] ∧
    List.count 2 [2, 2, 9] = 2 :=
  ⟨rfl, rfl, rfl⟩

/-- C5 (amended): a successful CREATE TABLE run with at least one
foreign-key declaration persists one referenced-table write (with its
schema-change notification) per resolved foreign key whose target is a
stored table — repeated targets are written repeatedly, in declaration
order — followed by exactly one save of the new table itself. -/
theorem runCreateTableFKs_saves
    (env : Env) (desc0 : TableDescriptor) (decls : List FKDecl) (newID : Nat)
    (env' : Env) (desc' : TableDescriptor) (saved : List Nat)
    (henvnd : (env.map (fun t => t.id)).Nodup)
    (hnd : (idsOf desc0).Nodup)
    (hcn : (desc0.columns.map (fun c => c.name)).Nodup)
    (hci : (desc0.columns.map (fun c => c.id)).Nodup)
    (hdn : (decls.map (fun d => d.fromCol)).Nodup)
    (hfk0 : ∀ i ∈ allIndexes desc0, i.foreignKey = none)
    (hrb0 : ∀ i ∈ allIndexes desc0, i.referencedBy = [])
    (hne : decls ≠ [])
    (hrun : runCreateTableFKs env desc0 decls newID = .ok (env', desc', saved)) :
    ∃ us : List FKTargetUpdate, us.length = decls.length ∧
      saved = savedList us ++ [newID] := by
  obtain ⟨us, hdid, hids, henvids, hlen, hsaved, husnd, hself2env, hFK, hRB, hENV⟩ :=
    runCreateTableFKs_core env desc0 decls newID env' desc' saved henvnd hnd hcn hci hdn
      hfk0 hrb0 hrun
  refine ⟨us, hlen, ?_⟩
  rw [hsaved]
  have hemp : decls.isEmpty = false := by
    cases decls with
    | nil => exact absurd rfl hne
    | cons a l => rfl
  rw [hemp]
  simp

theorem runCreateTableFKs_saves_witness :
    (([wAbc].map (fun t => t.id)).Nodup ∧ wDecls ≠ [] ∧
      runCreateTableFKs [wAbc] wXyz wDecls 9 = .ok wOut2) ∧
    (∃ us : List FKTargetUpdate, us.length = wDecls.length ∧
      wOut2.2.2 = savedList us ++ [9]) := by
  refine ⟨⟨by decide, by simp [wDecls], rfl⟩, ?_⟩
  exact runCreateTableFKs_saves [wAbc] wXyz wDecls 9 wOut2.1 wOut2.2.1 wOut2.2.2
    (by decide) (by decide) (by decide) (by decide) (by decide) (by decide) (by decide)
    (by simp [wDecls]) rfl

/-- C10: Every back-reference entry appended by `finalizeFKs` carries only
the new table's ID and the source index's ID with an empty name, while the
forward reference on the source index always carries a non-empty constraint
name (the declared one or the auto-generated `fk_<col>_ref_<table>_<targetcol>`
one), so the two sides of a finalized foreign-key link never agree on the
name field. -/
theorem finalized_fk_names_disagree
    (env : Env) (desc0 : TableDescriptor) (decls : List FKDecl) (newID : Nat)
    (env' : Env) (desc' : TableDescriptor) (saved : List Nat)
    (henvnd : (env.map (fun t => t.id)).Nodup)
    (henvidx : ∀ T ∈ env, (idsOf T).Nodup)
    (hnd : (idsOf desc0).Nodup)
    (hcn : (desc0.columns.map (fun c => c.name)).Nodup)
    (hci : (desc0.columns.map (fun c => c.id)).Nodup)
    (hdn : (decls.map (fun d => d.fromCol)).Nodup)
    (hfk0 : ∀ i ∈ allIndexes desc0, i.foreignKey = none)
    (hrb0 : ∀ i ∈ allIndexes desc0, i.referencedBy = [])
    (hnew_rb : ∀ T ∈ env, ∀ J ∈ allIndexes T, ∀ e ∈ J.referencedBy, e.table ≠ newID)
    (hrun : runCreateTableFKs env desc0 decls newID = .ok (env', desc', saved)) :
    (∀ T ∈ desc' :: env', ∀ J ∈ allIndexes T, ∀ e ∈ J.referencedBy,
        e.table = desc'.id → e.name = "") ∧
    (∀ i ∈ allIndexes desc', ∀ fk, i.foreignKey = some fk → fk.name ≠ "") ∧
    (∀ i ∈ allIndexes desc', ∀ fk, i.foreignKey = some fk →
        ∀ T ∈ desc' :: env', ∀ J ∈ allIndexes T, ∀ e ∈ J.referencedBy,
          e.table = desc'.id → fk.name ≠ e.name) := by
  obtain ⟨us, hdid, hids, henvids, hlen, hsaved, husnd, hself2env, hFK, hRB, hENV⟩ :=
    runCreateTableFKs_core env desc0 decls newID env' desc' saved henvnd hnd hcn hci hdn
      hfk0 hrb0 hrun
  have hndd' : (idsOf desc').Nodup := by
    rw [hids]
    exact hnd
  have hA : ∀ T ∈ desc' :: env', ∀ J ∈ allIndexes T, ∀ e ∈ J.referencedBy,
      e.table = desc'.id → e.name = "" := by
    intro T hT J hJ e he htab
    rcases List.mem_cons.mp hT with hTd | hTe
    · rw [hTd] at hJ
      have hJrb : J.referencedBy = rbView desc' J.id := by
        unfold rbView
        rw [findIndexByID_of_mem desc' J hJ hndd']
        rfl
      rw [hJrb, hRB J.id] at he
      exact selfRB_names us newID J.id e he
    · obtain ⟨T0, hT0, hTid, hTids, hTrb⟩ := hENV T hTe
      have hndT : (idsOf T).Nodup := by
        rw [hTids]
        exact henvidx T0 hT0
      have hJrb : J.referencedBy = rbView T J.id := by
        unfold rbView
        rw [findIndexByID_of_mem T J hJ hndT]
        rfl
      rw [hJrb, hTrb J.id] at he
      rcases List.mem_append.mp he with holdm | hnewm
      · exfalso
        have he0 : ∃ J0 ∈ allIndexes T0, e ∈ J0.referencedBy := by
          unfold rbView at holdm
          cases hfnd : findIndexByID T0 J.id with
          | none =>
              rw [hfnd] at holdm
              simp at holdm
          | some J0 =>
              rw [hfnd] at holdm
              simp at holdm
              exact ⟨J0, List.mem_of_find?_eq_some hfnd, holdm⟩
        obtain ⟨J0, hJ0, heJ0⟩ := he0
        exact hnew_rb T0 hT0 J0 hJ0 e heJ0 (htab.trans hdid)
      · exact envRB_names us newID T0.id J.id e hnewm
  have hB : ∀ i ∈ allIndexes desc', ∀ fk, i.foreignKey = some fk → fk.name ≠ "" := by
    intro i hi fk hfk
    have hfkvi : fkView desc' i.id = i.foreignKey := by
      unfold fkView
      rw [findIndexByID_of_mem desc' i hi hndd']
      rfl
    have hv : fkView desc' i.id = some fk := by
      rw [hfkvi]
      exact hfk
    have h := hFK i.id
    cases hf : us.find? (fun v => v.srcIdx == i.id) with
    | none =>
        have h' : fkView desc' i.id = none := by
          rw [hf] at h
          exact h
        rw [hv] at h'
        exact Option.noConfusion h'
    | some u =>
        have h' : ∃ nm, nm ≠ "" ∧ fkView desc' i.id =
            some { table := if u.targetSelf then newID else u.targetID,
                   index := u.targetIdx, name := nm } := by
          rw [hf] at h
          exact h
        obtain ⟨nm, hnm, hview⟩ := h'
        rw [hv, Option.some.injEq] at hview
        rw [hview]
        exact hnm
  refine ⟨hA, hB, ?_⟩
  intro i hi fk hfk T hT J hJ e he htab
  rw [hA T hT J hJ e he htab]
  exact hB i hi fk hfk

theorem finalized_fk_names_disagree_witness :
    (([wAbc].map (fun t => t.id)).Nodup ∧
      runCreateTableFKs [wAbc] wXyz wSelfDecls 9 = .ok wOut) ∧
    ((∀ T ∈ wOut.2.1 :: wOut.1, ∀ J ∈ allIndexes T, ∀ e ∈ J.referencedBy,
        e.table = wOut.2.1.id → e.name = "") ∧
     (∀ i ∈ allIndexes wOut.2.1, ∀ fk, i.foreignKey = some fk → fk.name ≠ "") ∧
     (∀ i ∈ allIndexes wOut.2.1, ∀ fk, i.foreignKey = some fk →
        ∀ T ∈ wOut.2.1 :: wOut.1, ∀ J ∈ allIndexes T, ∀ e ∈ J.referencedBy,
          e.table = wOut.2.1.id → fk.name ≠ e.name)) := by
  refine ⟨⟨by decide, rfl⟩, ?_⟩
  exact finalized_fk_names_disagree [wAbc] wXyz wSelfDecls 9 wOut.1 wOut.2.1 wOut.2.2
    (by decide) (by decide) (by decide) (by decide) (by decide) (by decide) (by decide)
    (by decide) (by decide) rfl

end CreateGo
